import Mathlib

/-!
# SiteStress: the availability state machine, the counters and the report

A shallow embedding of `src/cmd/SiteStress/main.go`: the per-domain record
`domainStats`, the body of the worker loop of `runAttack` (lines 225-277), the
worker fan-out and transport sizing of `runAttack` (lines 119-135, 201-211) and
`generateReport` (lines 341-385), and `normalizeDomain` (lines 107-113) with the
functions of package `strings` it calls.  The attack loop of
`src/cmd/UltraCrack/main.go` follows in its own namespace.

The loop body is embedded as one step on the shared record, with the snapshot of the
flag as an input, and folded over a list of steps.  `handle64` and `run64` have the
counters as the `int64` they are: every `atomic.AddInt64` wraps around at `1<<63`.
`handle` and `run` are the same body with counters that never overflow; flag, time
stamp and transition log are the same in both (`handle64_fields`), and the counters of
`run64` are those of `run` wrapped to `int64` (`Wraps_run`).
`act` splits the body into the atomic actions the workers really interleave (snapshot
under the mutex, guarded locked section, the two `atomic.AddInt64`, wrapping); `exec`
runs a schedule of such actions for any number of workers.  `exec_covered` shows that
`run64` covers every interleaving: once no worker is inside the loop body the shared
record is the one `run64` reaches on the handled outcomes.

The initial checks of `runAttack` (lines 141-194) are embedded with their failure: the
error of `http.NewRequest` is discarded at line 176 and the request is used at line 177,
so a URL that `http.NewRequest` refuses ends the process there (`none`).

Modelling conventions.

* A `time.Time` is an `Int`: the number of nanoseconds it lies after the zero
  `time.Time`, so that the zero value of the type is `0`.  A `time.Duration` is an `Int`
  too, its number of nanoseconds.
* Every call of `time.Now()` is an input of the step that makes it.
* The mutex `mu` is not a field: a section between `s.mu.Lock()` and `s.mu.Unlock()`
  is one function applied to the record.  The snapshot `isDown` that a worker reads
  in its first locked section (lines 225-227) is an input of the rest of the
  iteration, so that it can be older than the flag the second locked section finds.
* `time.Time.Format` depends on the location of the process; the two layouts used
  (`time.TimeOnly`, `time.RFC1123`) are parameters of the definitions that call them.
* An `int64` is an `Int` in the range of the type; `wrapInt64` brings a sum back into
  it.  The theorems on the counters are stated on `handle64` and `run64`; those on the
  flag, the time stamp and the log do not depend on the counters.
* Whether `http.NewRequest` returns a request for a URL is a parameter
  (`newRequest`), as is the answer of the probe.
-/

namespace SiteStress

/-! ## Time -/

/-- The constant `time.Second`. -/
def Second : Int := 1000000000

/-- The smallest `time.Duration`, `-1 << 63`. -/
def minDuration : Int := -9223372036854775808

/-- The largest `time.Duration`, `1<<63 - 1`. -/
def maxDuration : Int := 9223372036854775807

/-- Conversion of an integer to `int64` (two's complement wrap-around). -/
def wrapInt64 (x : Int) : Int := (x + 9223372036854775808) % 18446744073709551616 - 9223372036854775808

/-- Conversion of an integer to `uint64`. -/
def toUint64 (x : Int) : Int := x % 18446744073709551616

/-- The method `Time.Sub`: the difference `t - u`, saturated to the range of a
`time.Duration`. -/
def Time.Sub (t u : Int) : Int :=
  let d := t - u
  if d > maxDuration then maxDuration
  else if d < minDuration then minDuration
  else d

/-- The function `time.Since(t)`, which is `time.Now().Sub(t)`; `now` is the reading of
that `time.Now()`. -/
def Since (now t : Int) : Int := Time.Sub now t

/-- The helper `lessThanHalf` of package `time`: `uint64(x)+uint64(x) < uint64(y)`. -/
def lessThanHalf (x y : Int) : Bool :=
  decide (toUint64 (toUint64 x + toUint64 x) < toUint64 y)

/-- The method `Duration.Round`: `d` rounded to the nearest multiple of `m`, halves
away from zero, saturated at the ends of the range. -/
def Duration.Round (d m : Int) : Int :=
  if m ≤ 0 then d
  else
    let r := Int.tmod d m
    if d < 0 then
      let r := -r
      if lessThanHalf r m then d + r
      else
        let d1 := wrapInt64 (d - m + r)
        if d1 < d then d1 else minDuration
    else
      if lessThanHalf r m then d - r
      else
        let d1 := wrapInt64 (d + m - r)
        if d1 > d then d1 else maxDuration

/-- The helper `fmtFrac` of package `time`: the last `prec` decimal digits of `v` are
put in front of `buf` without their trailing zeros, after a decimal point when one of
them is not zero; the result is the text and `v / 10^prec`. -/
def fmtFrac : Nat → Nat → Bool → List Char → List Char × Nat
  | 0, v, print, buf => (if print then '.' :: buf else buf, v)
  | prec + 1, v, print, buf =>
    let digit := v % 10
    let print := print || digit != 0
    fmtFrac prec (v / 10) print (if print then Char.ofNat (digit + 48) :: buf else buf)

/-- The helper `fmtInt` of package `time`: the decimal digits of `v` put in front of
`buf`. -/
def fmtInt (v : Nat) (buf : List Char) : List Char := Nat.toDigits 10 v ++ buf

/-- The method `Duration.String`, which the verb `%v` prints for a `time.Duration`. -/
def Duration.String (d : Int) : String :=
  let u := d.natAbs
  let body : List Char :=
    if u < 1000000000 then
      if u = 0 then ['0', 's']
      else if u < 1000 then
        let (b, v) := fmtFrac 0 u false ['n', 's']
        fmtInt v b
      else if u < 1000000 then
        let (b, v) := fmtFrac 3 u false ['µ', 's']
        fmtInt v b
      else
        let (b, v) := fmtFrac 6 u false ['m', 's']
        fmtInt v b
    else
      let (b, v) := fmtFrac 9 u false ['s']
      let b := fmtInt (v % 60) b
      let v := v / 60
      if v > 0 then
        let b := fmtInt (v % 60) ('m' :: b)
        let v := v / 60
        if v > 0 then fmtInt v ('h' :: b) else b
      else b
  String.mk (if d < 0 then '-' :: body else body)

/-- The verb `%d` of `fmt.Sprintf` on an integer. -/
def fmtD (n : Int) : String := toString n

/-! ## Domain state -/

/-- The struct `domainStats` (lines 35-45), without its mutex. -/
structure domainStats where
  domain : String
  targetURL : String
  totalRequests : Int
  successRequests : Int
  failedRequests : Int
  siteDown : Bool
  siteDownSince : Int
  statusLog : List String
  deriving DecidableEq, Repr

/-- The composite literal of line 189: every field but the two names has its zero
value. -/
def newDomainStats (domain targetURL : String) : domainStats :=
  { domain := domain, targetURL := targetURL, totalRequests := 0, successRequests := 0,
    failedRequests := 0, siteDown := false, siteDownSince := 0, statusLog := [] }

/-- What `httpClient.Do(req)` returned (line 223): an error, or a response, of which
the loop reads the status code only. -/
inductive Result where
  | err : Result
  | resp (StatusCode : Int) : Result
  deriving DecidableEq, Repr

/-- The readings of the two `time.Now()` calls a flip makes: `flip` is the one stored in
`siteDownSince` (lines 235, 253) or taken by `time.Since` (line 266), `stamp` the one
printed at the head of the message (lines 236, 254, 268). -/
structure Clock where
  flip : Int
  stamp : Int
  deriving DecidableEq, Repr

/-- The message of line 236. -/
def downErrorMsg (timeOnly : Int → String) (stamp : Int) (domain : String) : String :=
  "[" ++ timeOnly stamp ++ "] 💥 " ++ domain ++ " is DOWN (connection error)!"

/-- The message of line 254. -/
def downStatusMsg (timeOnly : Int → String) (stamp : Int) (domain : String)
    (StatusCode : Int) : String :=
  "[" ++ timeOnly stamp ++ "] 💥 " ++ domain ++ " is DOWN (status " ++ fmtD StatusCode ++ ")!"

/-- The message of line 268. -/
def onlineMsg (timeOnly : Int → String) (stamp : Int) (domain : String)
    (downTime : Int) : String :=
  "[" ++ timeOnly stamp ++ "] ✅ " ++ domain ++ " is weer ONLINE (was "
    ++ Duration.String downTime ++ " plat). Re-engaging..."

/-- The locked section of lines 232-240. -/
def flipDownError (timeOnly : Int → String) (s : domainStats) (c : Clock) : domainStats :=
  if !s.siteDown then
    let msg := downErrorMsg timeOnly c.stamp s.domain
    { s with siteDown := true, siteDownSince := c.flip, statusLog := s.statusLog ++ [msg] }
  else s

/-- The locked section of lines 250-258. -/
def flipDownStatus (timeOnly : Int → String) (s : domainStats) (StatusCode : Int)
    (c : Clock) : domainStats :=
  if !s.siteDown then
    let msg := downStatusMsg timeOnly c.stamp s.domain StatusCode
    { s with siteDown := true, siteDownSince := c.flip, statusLog := s.statusLog ++ [msg] }
  else s

/-- The locked section of lines 264-272. -/
def flipUp (timeOnly : Int → String) (s : domainStats) (c : Clock) : domainStats :=
  if s.siteDown then
    let downTime := Duration.Round (Since c.flip s.siteDownSince) Second
    let msg := onlineMsg timeOnly c.stamp s.domain downTime
    { s with siteDown := false, statusLog := s.statusLog ++ [msg] }
  else s

/-- The body of the worker loop from line 229 to line 277, for the result `r` of the
request and the snapshot `isDown` read at lines 225-227, with counters that never
overflow (`handle64` below has the `int64` counters of the code). -/
def handle (timeOnly : Int → String) (s : domainStats) (r : Result) (isDown : Bool)
    (c : Clock) : domainStats :=
  let s :=
    match r with
    | Result.err =>
      let s := if !isDown then flipDownError timeOnly s c else s
      { s with failedRequests := s.failedRequests + 1 }
    | Result.resp StatusCode =>
      if StatusCode ≥ 500 || StatusCode == 429 then
        let s := if !isDown then flipDownStatus timeOnly s StatusCode c else s
        { s with failedRequests := s.failedRequests + 1 }
      else
        let s := if isDown then flipUp timeOnly s c else s
        { s with successRequests := s.successRequests + 1 }
  { s with totalRequests := s.totalRequests + 1 }

/-- The function `atomic.AddInt64` on a counter that holds `addr`: the sum on `int64`,
which wraps around at `1<<63`. -/
def AddInt64 (addr delta : Int) : Int := wrapInt64 (addr + delta)

/-- The body of the worker loop from line 229 to line 277 with the counters as the
`int64` they are: each `atomic.AddInt64(&..., 1)` wraps around.  Apart from that it is
`handle`, whose counters never overflow. -/
def handle64 (timeOnly : Int → String) (s : domainStats) (r : Result) (isDown : Bool)
    (c : Clock) : domainStats :=
  let s :=
    match r with
    | Result.err =>
      let s := if !isDown then flipDownError timeOnly s c else s
      { s with failedRequests := AddInt64 s.failedRequests 1 }
    | Result.resp StatusCode =>
      if StatusCode ≥ 500 || StatusCode == 429 then
        let s := if !isDown then flipDownStatus timeOnly s StatusCode c else s
        { s with failedRequests := AddInt64 s.failedRequests 1 }
      else
        let s := if isDown then flipUp timeOnly s c else s
        { s with successRequests := AddInt64 s.successRequests 1 }
  { s with totalRequests := AddInt64 s.totalRequests 1 }

/-- One handled outcome: the result of a request, the snapshot of the flag the worker
took, and the clock readings. -/
structure Step where
  result : Result
  isDown : Bool
  clock : Clock
  deriving DecidableEq, Repr

/-- The outcomes of a run on one domain, handled in the order of `steps`. -/
def run (timeOnly : Int → String) (s : domainStats) (steps : List Step) : domainStats :=
  steps.foldl (fun s st => handle timeOnly s st.result st.isDown st.clock) s

/-- The outcomes of a run on one domain, handled in the order of `steps`, with `int64`
counters. -/
def run64 (timeOnly : Int → String) (s : domainStats) (steps : List Step) : domainStats :=
  steps.foldl (fun s st => handle64 timeOnly s st.result st.isDown st.clock) s

/-- One whole iteration of one worker with nobody in between: lines 225-227 read the
flag of the very state the rest of the body works on. -/
def iteration (timeOnly : Int → String) (s : domainStats) (r : Result) (c : Clock) :
    domainStats :=
  let isDown := s.siteDown
  handle timeOnly s r isDown c

/-- Iterations one after another. -/
def runSeq (timeOnly : Int → String) (s : domainStats) (rs : List (Result × Clock)) :
    domainStats :=
  rs.foldl (fun s rc => iteration timeOnly s rc.1 rc.2) s

/-- A `time.TimeOnly` layout for a process whose location is UTC: `15:04:05`. -/
def timeOnlyUTC (t : Int) : String :=
  let secs := (t / 1000000000).toNat
  let two (n : Nat) : String := (if n < 10 then "0" else "") ++ toString n
  two (secs / 3600 % 24) ++ ":" ++ two (secs / 60 % 60) ++ ":" ++ two (secs % 60)

/-! ## Transition-log entries -/

/-- The two kinds of transition-log entry. -/
inductive Edge where
  | DOWN : Edge
  | UP : Edge
  deriving DecidableEq, Repr

/-- The kind of a transition-log entry, read off its text: the two messages of a
flip to DOWN (lines 236, 254) end in `)!`, the message of a flip to UP (line 268) ends in
` plat). Re-engaging...`. -/
def entryEdge (msg : String) : Option Edge :=
  if ")!".data <:+ msg.data then some Edge.DOWN
  else if " plat). Re-engaging...".data <:+ msg.data then some Edge.UP
  else none

/-- The two classes of a completed request. -/
inductive Classification where
  | success : Classification
  | failure : Classification
  deriving DecidableEq, Repr

/-- The classification rule in the words of the specification (section 4.2): a
transport-level error is a failure, a response with status at least 500 or status 429 is
a failure, any other response is a success.  The code has no function of this name: the
rule is spread over the branches of the worker loop, see `handle`. -/
def specClassify : Result → Classification
  | Result.err => Classification.failure
  | Result.resp StatusCode =>
    if StatusCode ≥ 500 ∨ StatusCode = 429 then Classification.failure
    else Classification.success

/-- The shape of the flag and the log that every handled outcome keeps: every entry is
a DOWN or an UP entry, the first is a DOWN entry, neighbours differ, and the flag is
DOWN exactly when the last entry is a DOWN entry. -/
structure LogInv (s : domainStats) : Prop where
  kinds : ∀ e ∈ s.statusLog, entryEdge e = some Edge.DOWN ∨ entryEdge e = some Edge.UP
  head : ∀ e, s.statusLog.head? = some e → entryEdge e = some Edge.DOWN
  chain : List.Chain' (fun a b => entryEdge a ≠ entryEdge b) s.statusLog
  last : ∀ e, s.statusLog.getLast? = some e →
    entryEdge e = some (if s.siteDown then Edge.DOWN else Edge.UP)
  empty : s.statusLog = [] → s.siteDown = false

/-- How a record `s64` with `int64` counters relates to the record `s` whose counters
never overflow: everything else is equal, and each counter of `s64` is the counter of
`s` converted to `int64`. -/
structure Wraps (s64 s : domainStats) : Prop where
  domain : s64.domain = s.domain
  targetURL : s64.targetURL = s.targetURL
  siteDown : s64.siteDown = s.siteDown
  siteDownSince : s64.siteDownSince = s.siteDownSince
  statusLog : s64.statusLog = s.statusLog
  total : s64.totalRequests = wrapInt64 s.totalRequests
  success : s64.successRequests = wrapInt64 s.successRequests
  failed : s64.failedRequests = wrapInt64 s.failedRequests

/-- The clock readings stored by the flips to DOWN of a run, in order: a step flips to
DOWN when it finds the flag UP and leaves it DOWN. -/
def downFlips (timeOnly : Int → String) : domainStats → List Step → List Int
  | _, [] => []
  | s, st :: steps =>
    (if !s.siteDown && (handle timeOnly s st.result st.isDown st.clock).siteDown then
      [st.clock.flip] else []) ++
    downFlips timeOnly (handle timeOnly s st.result st.isDown st.clock) steps

/-- The entry a flip to DOWN appends for the failed result `r`: the message of line 236
for a transport error, the message of line 254 for a response. -/
def downEntry (timeOnly : Int → String) (stamp : Int) (domain : String) : Result → String
  | Result.err => downErrorMsg timeOnly stamp domain
  | Result.resp StatusCode => downStatusMsg timeOnly stamp domain StatusCode

/-! ## The report -/

/-- The function `strings.Repeat`. -/
def Repeat (s : String) (count : Nat) : String := String.join (List.replicate count s)

/-- The log part of one domain's block (lines 373-384): the placeholder line when the
log is empty, otherwise the loop over the log that appends every entry, indented. -/
def reportLog (reportLines : List String) (s : domainStats) : List String :=
  if s.statusLog.length == 0 then
    let msg := "   (Geen downtime events geregistreerd)"
    reportLines ++ [msg]
  else
    s.statusLog.foldl (fun reportLines log => reportLines ++ ["   " ++ log]) reportLines

/-- The body of the loop over `stats` (lines 350-384); `none` is a nil pointer, which
the loop skips. -/
def reportDomain (reportLines : List String) : Option domainStats → List String
  | none => reportLines
  | some s =>
    let total := s.totalRequests
    let success := s.successRequests
    let fail := s.failedRequests
    let summary := "\nDOMEIN: " ++ s.domain
    let reportLines := reportLines ++ [summary]
    let line1 := "   Requests Totaal: " ++ fmtD total
    let line2 := "   Geslaagd (Up):   " ++ fmtD success
    let line3 := "   Gefaald (Down):  " ++ fmtD fail
    let reportLines := reportLines ++ [line1, line2, line3]
    let reportLines := reportLines ++ ["   Logboek:"]
    reportLog reportLines s

/-- The slice `reportLines` that `generateReport` builds (lines 344-385); `now` is the
reading of the `time.Now()` of line 345 and `rfc1123` the layout `time.RFC1123`. -/
def generateReport (rfc1123 : Int → String) (stats : List (Option domainStats))
    (minutes : Int) (now : Int) : List String :=
  let reportLines : List String := []
  let reportLines := reportLines ++ ["SITESTRESS RAPPORT - " ++ rfc1123 now]
  let reportLines := reportLines ++ ["Duur test: " ++ fmtD minutes ++ " minuten"]
  let reportLines := reportLines ++ [Repeat "-" 50]
  stats.foldl reportDomain reportLines

/-! ## The worker fan-out -/

/-- The variable `workersPerDomain` of `runAttack` (lines 120-123). -/
def workersPerDomain (domains : List String) : Nat :=
  if domains.length > 1 then 500 else 1000

/-- The fields of the `http.Transport` literal of lines 128-134; the time-out is in
nanoseconds. -/
structure Transport where
  MaxIdleConns : Nat
  MaxIdleConnsPerHost : Nat
  IdleConnTimeout : Int
  DisableKeepAlives : Bool
  ForceAttemptHTTP2 : Bool
  deriving DecidableEq, Repr

/-- The transport of `httpClient` (lines 126-135). -/
def newTransport (domains : List String) : Transport :=
  { MaxIdleConns := workersPerDomain domains * domains.length,
    MaxIdleConnsPerHost := workersPerDomain domains,
    IdleConnTimeout := 90 * Second,
    DisableKeepAlives := false,
    ForceAttemptHTTP2 := true }

/-- The loop over `urls` of lines 175-184.  `newRequest u` tells whether
`http.NewRequest("GET", u, nil)` returns a request: line 176 discards its error, so when
it returns nil line 177 calls `req.Header.Set` on nil and the program panics, which is
`none` here.  `probe u` tells whether the request to `u` returned no error.  The result
is the value of `targetURL` after the loop, empty when no probe worked. -/
def probeURLs (newRequest probe : String → Bool) : List String → Option String
  | [] => some ""
  | u :: urls =>
    if !newRequest u then none
    else if probe u then some u
    else probeURLs newRequest probe urls

/-- The choice of the target URL (lines 173-187): the first of the two URLs whose probe
request returns no error, the `https` one when both fail; `none` when the program has
panicked on the way. -/
def chooseTargetURL (newRequest probe : String → Bool) (domain : String) : Option String :=
  let urls := ["https://" ++ domain, "http://" ++ domain]
  match probeURLs newRequest probe urls with
  | none => none
  | some targetURL => some (if targetURL == "" then "https://" ++ domain else targetURL)

/-- The loop of the initial checks (lines 144-194) from the domain at index `i` on: one
fresh record per domain, in the order of the domains; `probe i` answers the probes made
for the domain at index `i`.  A panic in the check of one domain ends the program:
`none`. -/
def initialChecksFrom (newRequest : String → Bool) (probe : Nat → String → Bool) :
    Nat → List String → Option (List (Option domainStats))
  | _, [] => some []
  | i, domain :: domains =>
    match chooseTargetURL newRequest (probe i) domain with
    | none => none
    | some targetURL =>
      match initialChecksFrom newRequest probe (i + 1) domains with
      | none => none
      | some allStats => some (some (newDomainStats domain targetURL) :: allStats)

/-- The initial checks (lines 141-194): the slice `allStats`, or `none` when the program
has panicked before filling it. -/
def initialChecks (newRequest : String → Bool) (probe : Nat → String → Bool)
    (domains : List String) : Option (List (Option domainStats)) :=
  initialChecksFrom newRequest probe 0 domains

/-- The launch loop (lines 201-283).  A launched worker is named by the index in
`allStats` of the record its closure holds; the result lists the workers in launch
order.  A nil record launches nothing. -/
def launchWorkers (allStats : List (Option domainStats)) (workersPerDomain : Nat) :
    List Nat :=
  allStats.enum.foldl (fun launched p =>
    match p.2 with
    | none => launched
    | some _ => (List.range workersPerDomain).foldl (fun launched _ => launched ++ [p.1])
        launched) []

/-- The function `runAttack` from line 119 to the end of the launch loop (line 283): the
workers launched, in launch order, or `none` when the program has panicked in the
initial checks, before any worker is launched. -/
def startWorkers (newRequest : String → Bool) (probe : Nat → String → Bool)
    (domains : List String) : Option (List Nat) :=
  match initialChecks newRequest probe domains with
  | none => none
  | some allStats => some (launchWorkers allStats (workersPerDomain domains))

/-- A stand-in for `http.NewRequest("GET", u, nil)` on the URLs the initial check builds
from a domain without a path: `url.Parse` refuses a space in the host, so a URL with a
space yields no request. -/
def newRequestNoSpace (u : String) : Bool := !u.data.contains ' '

/-- The block of one domain in the words of the specification: the domain name line,
the total, success and failure counts, the log heading, and then the placeholder line
when the log is empty or else every entry of the log, indented, in insertion order. -/
def specReportBlock (s : domainStats) : List String :=
  ["\nDOMEIN: " ++ s.domain,
   "   Requests Totaal: " ++ fmtD s.totalRequests,
   "   Geslaagd (Up):   " ++ fmtD s.successRequests,
   "   Gefaald (Down):  " ++ fmtD s.failedRequests,
   "   Logboek:"] ++
  (if s.statusLog = [] then ["   (Geen downtime events geregistreerd)"]
   else s.statusLog.map (fun log => "   " ++ log))

/-! ## Interleaved workers -/

/-- Where a worker stands in the body of its loop. -/
inductive Pc where
  /-- Before line 223: no result in hand. -/
  | idle : Pc
  /-- After line 223 with result `r`: next comes the snapshot of lines 225-227. -/
  | snapshot (r : Result) : Pc
  /-- After line 227 with snapshot `isDown`: next comes the branch for `r` up to its
  counter, that is the guarded locked section of lines 231-241, 249-259 or 263-273. -/
  | branch (r : Result) (isDown : Bool) : Pc
  /-- Next comes the `atomic.AddInt64` of line 242, 260 or 274. -/
  | count (r : Result) : Pc
  /-- Next comes the `atomic.AddInt64` of line 277. -/
  | total : Pc
  deriving DecidableEq, Repr

/-- The record shared by the workers of one domain, and where each worker stands. -/
structure Config where
  stats : domainStats
  pcs : List Pc
  deriving DecidableEq, Repr

/-- The guarded locked section of the branch that the result `r` selects (lines 231-241,
249-259, 263-273). -/
def lockedSection (timeOnly : Int → String) (s : domainStats) (r : Result) (isDown : Bool)
    (c : Clock) : domainStats :=
  match r with
  | Result.err => if !isDown then flipDownError timeOnly s c else s
  | Result.resp StatusCode =>
    if StatusCode ≥ 500 || StatusCode == 429 then
      if !isDown then flipDownStatus timeOnly s StatusCode c else s
    else
      if isDown then flipUp timeOnly s c else s

/-- The `atomic.AddInt64` that ends the branch that the result `r` selects (line 242,
260 or 274). -/
def countSection (s : domainStats) (r : Result) : domainStats :=
  match r with
  | Result.err => { s with failedRequests := AddInt64 s.failedRequests 1 }
  | Result.resp StatusCode =>
    if StatusCode ≥ 500 || StatusCode == 429 then
      { s with failedRequests := AddInt64 s.failedRequests 1 }
    else
      { s with successRequests := AddInt64 s.successRequests 1 }

/-- One atomic action of worker `w`: what it does depends on where the worker stands.
The result `r` is used when the action is the return of a request, the clock `c` when
it is a locked section that flips the flag.  A worker that does not exist does
nothing. -/
def act (timeOnly : Int → String) (cfg : Config) (w : Nat) (r : Result) (c : Clock) :
    Config :=
  match cfg.pcs.get? w with
  | none => cfg
  | some Pc.idle => { cfg with pcs := cfg.pcs.set w (Pc.snapshot r) }
  | some (Pc.snapshot r') =>
    { cfg with pcs := cfg.pcs.set w (Pc.branch r' cfg.stats.siteDown) }
  | some (Pc.branch r' isDown) =>
    { stats := lockedSection timeOnly cfg.stats r' isDown c,
      pcs := cfg.pcs.set w (Pc.count r') }
  | some (Pc.count r') =>
    { stats := countSection cfg.stats r', pcs := cfg.pcs.set w Pc.total }
  | some Pc.total =>
    { stats := { cfg.stats with totalRequests := AddInt64 cfg.stats.totalRequests 1 },
      pcs := cfg.pcs.set w Pc.idle }

/-- An interleaving: the atomic actions of the workers in the order they happen. -/
def exec (timeOnly : Int → String) (cfg : Config) (schedule : List (Nat × Result × Clock)) :
    Config :=
  schedule.foldl (fun cfg a => act timeOnly cfg a.1 a.2.1 a.2.2) cfg

/-- The result a worker has in hand, if it still needs it. -/
def Pc.result : Pc → Option Result
  | Pc.idle => none
  | Pc.snapshot r => some r
  | Pc.branch r _ => some r
  | Pc.count r => some r
  | Pc.total => none

/-- The number of workers that have passed their locked section and still owe the
failure counter its increment. -/
def owedFailed (pcs : List Pc) : Int :=
  (pcs.map (fun pc =>
    match pc with
    | Pc.count r => if specClassify r = Classification.failure then (1 : Int) else 0
    | _ => 0)).sum

/-- The number of workers that have passed their locked section and still owe the
success counter its increment. -/
def owedSuccess (pcs : List Pc) : Int :=
  (pcs.map (fun pc =>
    match pc with
    | Pc.count r => if specClassify r = Classification.success then (1 : Int) else 0
    | _ => 0)).sum

/-- The number of workers that have passed their locked section and still owe the
total counter its increment. -/
def owedTotal (pcs : List Pc) : Int :=
  (pcs.map (fun pc =>
    match pc with
    | Pc.count _ => (1 : Int)
    | Pc.total => 1
    | _ => 0)).sum

/-- How the shared record of an interleaving, with its `int64` counters, relates to the
state `t` that `run` reaches on the steps whose locked section has been passed, with
counters that never overflow: same flag, time stamp and log, and each counter is the
counter of `t` less what is still owed, converted to `int64`. -/
structure Lags (cfg : Config) (t : domainStats) : Prop where
  domain : cfg.stats.domain = t.domain
  targetURL : cfg.stats.targetURL = t.targetURL
  siteDown : cfg.stats.siteDown = t.siteDown
  siteDownSince : cfg.stats.siteDownSince = t.siteDownSince
  statusLog : cfg.stats.statusLog = t.statusLog
  failed : cfg.stats.failedRequests = wrapInt64 (t.failedRequests - owedFailed cfg.pcs)
  success : cfg.stats.successRequests = wrapInt64 (t.successRequests - owedSuccess cfg.pcs)
  total : cfg.stats.totalRequests = wrapInt64 (t.totalRequests - owedTotal cfg.pcs)
  owedFailedLe : owedFailed cfg.pcs ≤ t.failedRequests
  owedSuccessLe : owedSuccess cfg.pcs ≤ t.successRequests
  owedTotalLe : owedTotal cfg.pcs ≤ t.totalRequests

/-- The counters of a record are `int64` values that are not negative, as those of a
record are that has only been counted up from 0 without overflow. -/
structure CountersInRange (s : domainStats) : Prop where
  total : 0 ≤ s.totalRequests ∧ s.totalRequests < 9223372036854775808
  success : 0 ≤ s.successRequests ∧ s.successRequests < 9223372036854775808
  failed : 0 ≤ s.failedRequests ∧ s.failedRequests < 9223372036854775808

/-! ## Domain names

A Go string is taken as its sequence of characters; prefixes, suffixes and lengths are
counted in characters. -/

/-- The function `unicode.IsSpace`: the Latin-1 space characters tab, line feed, vertical
tab, form feed, carriage return, space, U+0085 and U+00A0, and beyond Latin-1 the
characters of the Unicode property `White_Space`. -/
def IsSpace (r : Char) : Bool :=
  let n := r.toNat
  if n ≤ 255 then
    n == 9 || n == 10 || n == 11 || n == 12 || n == 13 || n == 32 || n == 133 || n == 160
  else
    n == 5760 || (8192 ≤ n && n ≤ 8202) || n == 8232 || n == 8233 || n == 8239 ||
      n == 8287 || n == 12288

/-- The function `strings.TrimSpace`: the string without its leading and trailing white
space. -/
def TrimSpace (s : String) : String :=
  String.mk ((s.data.dropWhile IsSpace).rdropWhile IsSpace)

/-- The function `strings.HasPrefix`. -/
def HasPrefix (s pfx : String) : Bool := pfx.data.isPrefixOf s.data

/-- The function `strings.TrimPrefix`: `s` without the leading `pfx`, or `s` itself when
it does not start with `pfx`. -/
def TrimPrefix (s pfx : String) : String :=
  if HasPrefix s pfx then String.mk (s.data.drop pfx.data.length) else s

/-- The function `strings.HasSuffix`. -/
def HasSuffix (s suffix : String) : Bool := suffix.data.isSuffixOf s.data

/-- The function `strings.TrimSuffix`: `s` without the trailing `suffix`, or `s` itself
when it does not end with `suffix`. -/
def TrimSuffix (s suffix : String) : String :=
  if HasSuffix s suffix then String.mk (s.data.take (s.data.length - suffix.data.length))
  else s

/-- The function `normalizeDomain` (lines 107-113). -/
def normalizeDomain (d : String) : String :=
  let d := TrimSpace d
  let d := TrimPrefix d "http://"
  let d := TrimPrefix d "https://"
  let d := TrimSuffix d "/"
  TrimSuffix d "."

end SiteStress

/-! # UltraCrack: the attack loop

A shallow embedding of the loop of `runAttack` in `src/cmd/UltraCrack/main.go` (lines
261-318).  The request that `tryBasic` or `tryForm` sends is an input: `attempt i j` is
the answer of the target to the attempt made for the user at index `i` and the password
at index `j`.  Every position is tried at most once, so this covers every behaviour of
the target, also one that answers the same credentials differently later on. -/

namespace UltraCrack

/-- The variables of the loop of `runAttack`: the counter `count`, the flag `found`,
and what the loop has done to the outside: the credentials it has passed to `tryBasic`
or `tryForm`, in order, and the credentials it has printed as found. -/
structure Attack where
  count : Nat
  found : Bool
  attempts : List (String × String)
  reported : Option (String × String)
  deriving DecidableEq, Repr

/-- The inner loop `for _, p := range passwords` (lines 280-306) for the user `u` at
index `i`; `j` is the index of the first password of the list that is left. -/
def tryPasswords (attempt : Nat → Nat → Bool) (i : Nat) (u : String) :
    Nat → List String → Attack → Attack
  | _, [], st => st
  | j, p :: passwords, st =>
    if st.found then st
    else
      let st := { st with count := st.count + 1, attempts := st.attempts ++ [(u, p)] }
      let success := attempt i j
      if success then
        { st with found := true, reported := some (u, p) }
      else tryPasswords attempt i u (j + 1) passwords st

/-- The outer loop `for _, u := range users` (lines 279-310); `i` is the index of the
first user of the list that is left. -/
def tryUsers (attempt : Nat → Nat → Bool) (passwords : List String) :
    Nat → List String → Attack → Attack
  | _, [], st => st
  | i, u :: users, st =>
    let st := tryPasswords attempt i u 0 passwords st
    if st.found then st
    else tryUsers attempt passwords (i + 1) users st

/-- The function `runAttack` from line 261 on, for the lists as loaded: no user means
the user `admin`, no password ends the program (`none`), otherwise the loop runs from
`count := 0`, `found := false`. -/
def runAttack (attempt : Nat → Nat → Bool) (users passwords : List String) :
    Option Attack :=
  let users := if users.length == 0 then ["admin"] else users
  if passwords.length == 0 then none
  else
    some (tryUsers attempt passwords 0 users
      { count := 0, found := false, attempts := [], reported := none })

/-- The pairs in user-major order, in the words of the claim: each user in list order,
and for each user every password in list order. -/
def specPairs : List String → List String → List (String × String)
  | [], _ => []
  | u :: users, passwords => passwords.map (fun p => (u, p)) ++ specPairs users passwords

end UltraCrack

namespace SiteStress

/-! ## Lemmas on the messages -/

theorem entryEdge_downErrorMsg (timeOnly : Int → String) (stamp : Int) (domain : String) :
    entryEdge (downErrorMsg timeOnly stamp domain) = some Edge.DOWN := by
  unfold entryEdge downErrorMsg
  rw [if_pos]
  simp only [String.data_append]
  exact List.IsSuffix.trans (by decide) (List.suffix_append _ _)

theorem entryEdge_downStatusMsg (timeOnly : Int → String) (stamp : Int) (domain : String)
    (StatusCode : Int) :
    entryEdge (downStatusMsg timeOnly stamp domain StatusCode) = some Edge.DOWN := by
  unfold entryEdge downStatusMsg
  rw [if_pos]
  simp only [String.data_append]
  exact List.suffix_append _ _

theorem not_suffix_of_getLast (a b l : List Char) (x y : Char) (hxy : x ≠ y) :
    ¬ (a ++ [x]) <:+ (l ++ (b ++ [y])) := by
  rintro ⟨t, ht⟩
  have h1 : (t ++ (a ++ [x])).getLast? = (l ++ (b ++ [y])).getLast? := by rw [ht]
  rw [← List.append_assoc, ← List.append_assoc, List.getLast?_append, List.getLast?_append] at h1
  simp at h1
  exact hxy h1

theorem entryEdge_onlineMsg (timeOnly : Int → String) (stamp : Int) (domain : String)
    (downTime : Int) :
    entryEdge (onlineMsg timeOnly stamp domain downTime) = some Edge.UP := by
  unfold entryEdge onlineMsg
  rw [if_neg, if_pos]
  · simp only [String.data_append]
    exact List.suffix_append _ _
  · simp only [String.data_append]
    exact not_suffix_of_getLast [')'] " plat). Re-engaging..".data _ '!' '.' (by decide)

/-! ## One step -/

/-- What one handled outcome can do to the flag, the time stamp and the log: nothing, a
flip to DOWN with one DOWN entry (only for a failure handled with snapshot UP), or a flip
to UP with one UP entry (only for a success handled with snapshot DOWN). -/
theorem handle_flag_log (timeOnly : Int → String) (s : domainStats) (r : Result)
    (isDown : Bool) (c : Clock) :
    let s' := handle timeOnly s r isDown c
    (s'.siteDown = s.siteDown ∧ s'.statusLog = s.statusLog ∧
        s'.siteDownSince = s.siteDownSince) ∨
    (s.siteDown = false ∧ s'.siteDown = true ∧ s'.siteDownSince = c.flip ∧
        specClassify r = Classification.failure ∧ isDown = false ∧
        ∃ m, entryEdge m = some Edge.DOWN ∧ s'.statusLog = s.statusLog ++ [m]) ∨
    (s.siteDown = true ∧ s'.siteDown = false ∧ s'.siteDownSince = s.siteDownSince ∧
        specClassify r = Classification.success ∧ isDown = true ∧
        ∃ m, entryEdge m = some Edge.UP ∧ s'.statusLog = s.statusLog ++ [m]) := by
  intro s'
  cases r with
  | err =>
    cases isDown with
    | true => left; simp [s', handle]
    | false =>
      cases hd : s.siteDown with
      | true => left; simp [s', handle, flipDownError, hd]
      | false =>
        right; left
        refine ⟨rfl, ?_, ?_, rfl, rfl, _, entryEdge_downErrorMsg timeOnly c.stamp s.domain, ?_⟩ <;>
          simp [s', handle, flipDownError, hd]
  | resp code =>
    by_cases hc : code ≥ 500 ∨ code = 429
    · cases isDown with
      | true => left; simp [s', handle, hc]
      | false =>
        cases hd : s.siteDown with
        | true => left; simp [s', handle, flipDownStatus, hd, hc]
        | false =>
          right; left
          refine ⟨rfl, ?_, ?_, ?_, rfl, _,
            entryEdge_downStatusMsg timeOnly c.stamp s.domain code, ?_⟩ <;>
            simp [s', handle, flipDownStatus, hd, hc, specClassify]
    · cases isDown with
      | false => left; simp [s', handle, hc]
      | true =>
        cases hd : s.siteDown with
        | false => left; simp [s', handle, flipUp, hd, hc]
        | true =>
          right; right
          refine ⟨rfl, ?_, ?_, ?_, rfl, _, entryEdge_onlineMsg timeOnly c.stamp s.domain
            (Duration.Round (Since c.flip s.siteDownSince) Second), ?_⟩ <;>
            simp [s', handle, flipUp, hd, hc, specClassify]

/-- The counters after one handled outcome. -/
theorem handle_counters (timeOnly : Int → String) (s : domainStats) (r : Result)
    (isDown : Bool) (c : Clock) :
    let s' := handle timeOnly s r isDown c
    s'.totalRequests = s.totalRequests + 1 ∧
    s'.successRequests =
      s.successRequests + (if specClassify r = Classification.success then 1 else 0) ∧
    s'.failedRequests =
      s.failedRequests + (if specClassify r = Classification.failure then 1 else 0) := by
  intro s'
  cases r with
  | err =>
    cases isDown
    all_goals simp [s', handle, specClassify, flipDownError]
    all_goals split
    all_goals simp
  | resp code =>
    by_cases hc : code ≥ 500 ∨ code = 429
    · cases isDown
      all_goals simp [s', handle, specClassify, flipDownStatus, hc]
      all_goals split
      all_goals simp
    · cases isDown
      all_goals simp [s', handle, specClassify, flipUp, hc]
      all_goals split
      all_goals simp

theorem run_nil (timeOnly : Int → String) (s : domainStats) : run timeOnly s [] = s := rfl

theorem run_cons (timeOnly : Int → String) (s : domainStats) (st : Step) (steps : List Step) :
    run timeOnly s (st :: steps) =
      run timeOnly (handle timeOnly s st.result st.isDown st.clock) steps := rfl

theorem run_append (timeOnly : Int → String) (s : domainStats) (xs ys : List Step) :
    run timeOnly s (xs ++ ys) = run timeOnly (run timeOnly s xs) ys := by
  simp [run, List.foldl_append]

/-! ## The shape of the log -/

theorem LogInv_new (domain targetURL : String) : LogInv (newDomainStats domain targetURL) where
  kinds := by simp [newDomainStats]
  head := by simp [newDomainStats]
  chain := by simp [newDomainStats]
  last := by simp [newDomainStats]
  empty := by simp [newDomainStats]

theorem LogInv_handle (timeOnly : Int → String) (s : domainStats) (r : Result)
    (isDown : Bool) (c : Clock) (h : LogInv s) : LogInv (handle timeOnly s r isDown c) := by
  rcases handle_flag_log timeOnly s r isDown c with ⟨hf, hl, _⟩ |
    ⟨hf, hf', _, _, _, m, hm, hl⟩ | ⟨hf, hf', _, _, _, m, hm, hl⟩
  · exact ⟨by rw [hl]; exact h.kinds, by rw [hl]; exact h.head, by rw [hl]; exact h.chain,
      by rw [hl, hf]; exact h.last, by rw [hl, hf]; exact h.empty⟩
  · refine ⟨?_, ?_, ?_, ?_, ?_⟩
    · intro e he
      rw [hl, List.mem_append, List.mem_singleton] at he
      rcases he with he | he
      · exact h.kinds e he
      · left; rw [he]; exact hm
    · intro e he
      rw [hl] at he
      cases hlog : s.statusLog with
      | nil => rw [hlog] at he; simp at he; rw [← he]; exact hm
      | cons a l => rw [hlog] at he; simp at he; exact h.head e (by rw [hlog, ← he]; rfl)
    · rw [hl, List.chain'_append]
      refine ⟨h.chain, List.chain'_singleton m, ?_⟩
      intro x hx y hy
      simp at hy
      rw [← hy, hm, h.last x hx, hf]
      simp
    · intro e he
      rw [hl, List.getLast?_append] at he
      simp at he
      rw [← he, hm, hf']
      rfl
    · intro he
      rw [hl] at he
      simp at he
  · have hne : s.statusLog ≠ [] := fun he => by
      have := h.empty he
      rw [hf] at this
      exact Bool.noConfusion this
    refine ⟨?_, ?_, ?_, ?_, ?_⟩
    · intro e he
      rw [hl, List.mem_append, List.mem_singleton] at he
      rcases he with he | he
      · exact h.kinds e he
      · right; rw [he]; exact hm
    · intro e he
      rw [hl] at he
      cases hlog : s.statusLog with
      | nil => exact absurd hlog hne
      | cons a l => rw [hlog] at he; simp at he; exact h.head e (by rw [hlog, ← he]; rfl)
    · rw [hl, List.chain'_append]
      refine ⟨h.chain, List.chain'_singleton m, ?_⟩
      intro x hx y hy
      simp at hy
      rw [← hy, hm, h.last x hx, hf]
      simp
    · intro e he
      rw [hl, List.getLast?_append] at he
      simp at he
      rw [← he, hm, hf']
      rfl
    · intro he
      rw [hl] at he
      simp at he

theorem LogInv_run (timeOnly : Int → String) (steps : List Step) :
    ∀ s : domainStats, LogInv s → LogInv (run timeOnly s steps) := by
  induction steps with
  | nil => intro s h; exact h
  | cons st steps ih =>
    intro s h
    rw [run_cons]
    exact ih _ (LogInv_handle timeOnly s st.result st.isDown st.clock h)

/-- Two outcomes handled with the same snapshot of the flag append at most one entry
between them. -/
theorem same_snapshot_one_entry (timeOnly : Int → String) (s : domainStats)
    (r₁ r₂ : Result) (snapshot : Bool) (c₁ c₂ : Clock) :
    (run timeOnly s [⟨r₁, snapshot, c₁⟩, ⟨r₂, snapshot, c₂⟩]).statusLog.length
      ≤ s.statusLog.length + 1 := by
  simp only [run_cons, run_nil]
  rcases handle_flag_log timeOnly s r₁ snapshot c₁ with ⟨_, hl, _⟩ |
    ⟨_, hf, _, _, hs, m, _, hl⟩ | ⟨_, hf, _, _, hs, m, _, hl⟩ <;>
  rcases handle_flag_log timeOnly (handle timeOnly s r₁ snapshot c₁) r₂ snapshot c₂ with
    ⟨_, hl', _⟩ | ⟨hf', _, _, _, hs', m', _, hl'⟩ | ⟨hf', _, _, _, hs', m', _, hl'⟩
  all_goals first
    | (rw [hl', hl]; simp; done)
    | (rw [hf] at hf'; exact Bool.noConfusion hf')
    | (rw [hs] at hs'; exact Bool.noConfusion hs')

/-- C1. From the initial state, after any finite sequence of handled outcomes, each
with its own possibly stale snapshot of the flag, every entry of the transition log is a
DOWN or an UP entry, the first entry (if any) is a DOWN entry, and no two neighbouring
entries are of the same kind; and two outcomes handled with the same snapshot (two
workers that saw the same edge) append at most one entry between them. -/
theorem statusLog_alternates (timeOnly : Int → String) (domain targetURL : String)
    (steps : List Step) :
    (∀ e ∈ (run timeOnly (newDomainStats domain targetURL) steps).statusLog,
        entryEdge e = some Edge.DOWN ∨ entryEdge e = some Edge.UP) ∧
    (∀ e, (run timeOnly (newDomainStats domain targetURL) steps).statusLog.head? = some e →
        entryEdge e = some Edge.DOWN) ∧
    List.Chain' (fun a b => entryEdge a ≠ entryEdge b)
      (run timeOnly (newDomainStats domain targetURL) steps).statusLog ∧
    (∀ (s : domainStats) (r₁ r₂ : Result) (snapshot : Bool) (c₁ c₂ : Clock),
      (run timeOnly s [⟨r₁, snapshot, c₁⟩, ⟨r₂, snapshot, c₂⟩]).statusLog.length
        ≤ s.statusLog.length + 1) :=
  have h := LogInv_run timeOnly steps _ (LogInv_new domain targetURL)
  ⟨h.kinds, h.head, h.chain, same_snapshot_one_entry timeOnly⟩

/-! ## The counters -/

theorem run_counters (timeOnly : Int → String) (steps : List Step) :
    ∀ s : domainStats,
    (run timeOnly s steps).totalRequests = s.totalRequests + steps.length ∧
    (run timeOnly s steps).successRequests = s.successRequests +
      (steps.filter (fun st => specClassify st.result = Classification.success)).length ∧
    (run timeOnly s steps).failedRequests = s.failedRequests +
      (steps.filter (fun st => specClassify st.result = Classification.failure)).length := by
  induction steps with
  | nil => intro s; simp [run_nil]
  | cons st steps ih =>
    intro s
    rw [run_cons]
    obtain ⟨h1, h2, h3⟩ := ih (handle timeOnly s st.result st.isDown st.clock)
    obtain ⟨k1, k2, k3⟩ := handle_counters timeOnly s st.result st.isDown st.clock
    rw [h1, h2, h3, k1, k2, k3]
    refine ⟨?_, ?_, ?_⟩
    · simp only [List.length_cons]; push_cast; ring
    · by_cases hc : specClassify st.result = Classification.success
      · simp only [List.filter_cons, hc, decide_True, if_true, List.length_cons]
        push_cast; ring
      · simp [List.filter_cons, hc]
    · by_cases hc : specClassify st.result = Classification.failure
      · simp only [List.filter_cons, hc, decide_True, if_true, List.length_cons]
        push_cast; ring
      · simp [List.filter_cons, hc]

theorem wrapInt64_add_wrap (a b : Int) : wrapInt64 (wrapInt64 a + b) = wrapInt64 (a + b) := by
  unfold wrapInt64
  omega

theorem wrapInt64_of_range (x : Int) (h0 : -9223372036854775808 ≤ x)
    (h1 : x < 9223372036854775808) : wrapInt64 x = x := by
  unfold wrapInt64
  omega

theorem AddInt64_ne (x : Int) : AddInt64 x 1 ≠ x := by
  unfold AddInt64 wrapInt64
  omega

theorem AddInt64_of_range (x : Int) (h0 : -9223372036854775808 ≤ x)
    (h1 : x < 9223372036854775807) : AddInt64 x 1 = x + 1 := by
  unfold AddInt64 wrapInt64
  omega

/-- One step of `handle64` next to one step of `handle` on records that agree in
everything but the counters: they still agree in everything but the counters, and the
counters of `handle64` are those of its argument, with one `atomic.AddInt64` on the total
and one on the counter of the class of the result. -/
theorem handle64_fields (timeOnly : Int → String) (s64 s : domainStats) (r : Result)
    (isDown : Bool) (c : Clock) (hd : s64.domain = s.domain)
    (hu : s64.targetURL = s.targetURL) (hf : s64.siteDown = s.siteDown)
    (hs : s64.siteDownSince = s.siteDownSince) (hl : s64.statusLog = s.statusLog) :
    (handle64 timeOnly s64 r isDown c).domain = (handle timeOnly s r isDown c).domain ∧
    (handle64 timeOnly s64 r isDown c).targetURL =
      (handle timeOnly s r isDown c).targetURL ∧
    (handle64 timeOnly s64 r isDown c).siteDown = (handle timeOnly s r isDown c).siteDown ∧
    (handle64 timeOnly s64 r isDown c).siteDownSince =
      (handle timeOnly s r isDown c).siteDownSince ∧
    (handle64 timeOnly s64 r isDown c).statusLog =
      (handle timeOnly s r isDown c).statusLog ∧
    (handle64 timeOnly s64 r isDown c).totalRequests = AddInt64 s64.totalRequests 1 ∧
    (handle64 timeOnly s64 r isDown c).successRequests =
      (if specClassify r = Classification.success then AddInt64 s64.successRequests 1
       else s64.successRequests) ∧
    (handle64 timeOnly s64 r isDown c).failedRequests =
      (if specClassify r = Classification.failure then AddInt64 s64.failedRequests 1
       else s64.failedRequests) := by
  cases r with
  | err =>
    cases isDown
    all_goals cases hft : s.siteDown
    all_goals simp [handle64, handle, flipDownError, specClassify, hd, hu, hf, hs, hl, hft]
  | resp code =>
    by_cases hc : code ≥ 500 ∨ code = 429
    all_goals cases isDown
    all_goals cases hft : s.siteDown
    all_goals simp [handle64, handle, flipDownStatus, flipUp, specClassify, hd, hu, hf, hs, hl,
      hft, hc]

theorem Wraps_handle (timeOnly : Int → String) (s64 s : domainStats) (r : Result)
    (isDown : Bool) (c : Clock) (h : Wraps s64 s) :
    Wraps (handle64 timeOnly s64 r isDown c) (handle timeOnly s r isDown c) := by
  obtain ⟨k1, k2, k3, k4, k5, k6, k7, k8⟩ := handle64_fields timeOnly s64 s r isDown c
    h.domain h.targetURL h.siteDown h.siteDownSince h.statusLog
  obtain ⟨c1, c2, c3⟩ := handle_counters timeOnly s r isDown c
  refine ⟨k1, k2, k3, k4, k5, ?_, ?_, ?_⟩
  · rw [k6, c1, h.total, AddInt64, wrapInt64_add_wrap]
  · rw [k7, c2, h.success]
    cases specClassify r
    · simp only [if_true, AddInt64, wrapInt64_add_wrap]
    · simp
  · rw [k8, c3, h.failed]
    cases specClassify r
    · simp
    · simp only [if_true, AddInt64, wrapInt64_add_wrap]

theorem run64_nil (timeOnly : Int → String) (s : domainStats) : run64 timeOnly s [] = s := rfl

theorem run64_cons (timeOnly : Int → String) (s : domainStats) (st : Step)
    (steps : List Step) :
    run64 timeOnly s (st :: steps) =
      run64 timeOnly (handle64 timeOnly s st.result st.isDown st.clock) steps := rfl

theorem run64_append (timeOnly : Int → String) (s : domainStats) (xs ys : List Step) :
    run64 timeOnly s (xs ++ ys) = run64 timeOnly (run64 timeOnly s xs) ys := by
  simp [run64, List.foldl_append]

/-- A run with `int64` counters next to the same run with counters that never overflow:
same flag, time stamp and log, and each `int64` counter is the other one converted. -/
theorem Wraps_run (timeOnly : Int → String) (steps : List Step) :
    ∀ s64 s : domainStats, Wraps s64 s →
      Wraps (run64 timeOnly s64 steps) (run timeOnly s steps) := by
  induction steps with
  | nil => intro s64 s h; exact h
  | cons st steps ih =>
    intro s64 s h
    rw [run64_cons, run_cons]
    exact ih _ _ (Wraps_handle timeOnly s64 s st.result st.isDown st.clock h)

theorem filter_classes_length (l : List Step) :
    ((l.filter (fun st => specClassify st.result = Classification.success)).length : Int) +
      (l.filter (fun st => specClassify st.result = Classification.failure)).length =
      l.length := by
  have : (l.filter (fun st => specClassify st.result = Classification.success)).length +
      (l.filter (fun st => specClassify st.result = Classification.failure)).length =
      l.length := by
    induction l with
    | nil => rfl
    | cons a l ih =>
      cases ha : specClassify a.result <;> simp [List.filter_cons, ha] <;> omega
  exact_mod_cast this

/-- The `int64` counters of a run that starts with counters 0: the numbers of outcomes,
of successes and of failures handled, converted to `int64`. -/
theorem run64_counters (timeOnly : Int → String) (s : domainStats) (steps : List Step)
    (hTotal : s.totalRequests = 0) (hSuccess : s.successRequests = 0)
    (hFailed : s.failedRequests = 0) :
    (run64 timeOnly s steps).totalRequests = wrapInt64 steps.length ∧
    (run64 timeOnly s steps).successRequests = wrapInt64
      (steps.filter (fun st => specClassify st.result = Classification.success)).length ∧
    (run64 timeOnly s steps).failedRequests = wrapInt64
      (steps.filter (fun st => specClassify st.result = Classification.failure)).length := by
  have h0 : Wraps s s :=
    ⟨rfl, rfl, rfl, rfl, rfl, by rw [hTotal]; decide, by rw [hSuccess]; decide,
      by rw [hFailed]; decide⟩
  have hw := Wraps_run timeOnly steps s s h0
  obtain ⟨h1, h2, h3⟩ := run_counters timeOnly steps s
  rw [hTotal, zero_add] at h1
  rw [hSuccess, zero_add] at h2
  rw [hFailed, zero_add] at h3
  exact ⟨by rw [hw.total, h1], by rw [hw.success, h2], by rw [hw.failed, h3]⟩

/-- The same counters when fewer than `1<<63` outcomes are handled: the numbers
themselves. -/
theorem run64_counters_exact (timeOnly : Int → String) (s : domainStats)
    (steps : List Step) (hTotal : s.totalRequests = 0) (hSuccess : s.successRequests = 0)
    (hFailed : s.failedRequests = 0) (hlen : steps.length < 9223372036854775808) :
    (run64 timeOnly s steps).totalRequests = steps.length ∧
    (run64 timeOnly s steps).successRequests =
      (steps.filter (fun st => specClassify st.result = Classification.success)).length ∧
    (run64 timeOnly s steps).failedRequests =
      (steps.filter (fun st => specClassify st.result = Classification.failure)).length := by
  obtain ⟨h1, h2, h3⟩ := run64_counters timeOnly s steps hTotal hSuccess hFailed
  have hsplit := filter_classes_length steps
  refine ⟨?_, ?_, ?_⟩
  · rw [h1]; exact wrapInt64_of_range _ (by omega) (by omega)
  · rw [h2]; exact wrapInt64_of_range _ (by omega) (by omega)
  · rw [h3]; exact wrapInt64_of_range _ (by omega) (by omega)

/-- C2. A run that starts from counters `total = success = failure = 0` and handles
any finite sequence of outcomes, whatever the snapshots, with the counters as the `int64`
they are.  Afterwards `total == success + failure` holds as Go evaluates it, and `total`
is the number of outcomes handled, converted to `int64`.  When fewer than `1<<63`
outcomes are handled, which no run exceeds, nothing wraps: `total = success + failure`,
`total` is the number of outcomes handled, `success` the number of successes and
`failure` the number of failures, and each outcome of the sequence adds exactly 1 to
`total` and exactly 1 to exactly one of `success` and `failure`.  At every state
whatsoever a handled outcome is one `atomic.AddInt64(…, 1)` on `total` and one on exactly
one of `success` and `failure`, and below the largest `int64` that is plus 1. -/
theorem counters_balance (timeOnly : Int → String) (s : domainStats) (steps : List Step)
    (hTotal : s.totalRequests = 0) (hSuccess : s.successRequests = 0)
    (hFailed : s.failedRequests = 0) :
    (run64 timeOnly s steps).totalRequests =
      wrapInt64 ((run64 timeOnly s steps).successRequests +
        (run64 timeOnly s steps).failedRequests) ∧
    (run64 timeOnly s steps).totalRequests = wrapInt64 steps.length ∧
    (steps.length < 9223372036854775808 →
      (run64 timeOnly s steps).totalRequests =
        (run64 timeOnly s steps).successRequests + (run64 timeOnly s steps).failedRequests ∧
      (run64 timeOnly s steps).totalRequests = steps.length ∧
      (run64 timeOnly s steps).successRequests =
        (steps.filter (fun st => specClassify st.result = Classification.success)).length ∧
      (run64 timeOnly s steps).failedRequests =
        (steps.filter (fun st => specClassify st.result = Classification.failure)).length ∧
      (∀ k, k < steps.length →
        (run64 timeOnly s (steps.take (k + 1))).totalRequests =
          (run64 timeOnly s (steps.take k)).totalRequests + 1 ∧
        (((run64 timeOnly s (steps.take (k + 1))).successRequests =
              (run64 timeOnly s (steps.take k)).successRequests + 1 ∧
            (run64 timeOnly s (steps.take (k + 1))).failedRequests =
              (run64 timeOnly s (steps.take k)).failedRequests) ∨
          ((run64 timeOnly s (steps.take (k + 1))).successRequests =
              (run64 timeOnly s (steps.take k)).successRequests ∧
            (run64 timeOnly s (steps.take (k + 1))).failedRequests =
              (run64 timeOnly s (steps.take k)).failedRequests + 1)))) ∧
    (∀ (t : domainStats) (r : Result) (isDown : Bool) (c : Clock),
      (handle64 timeOnly t r isDown c).totalRequests = AddInt64 t.totalRequests 1 ∧
      (((handle64 timeOnly t r isDown c).successRequests = AddInt64 t.successRequests 1 ∧
          (handle64 timeOnly t r isDown c).failedRequests = t.failedRequests) ∨
        ((handle64 timeOnly t r isDown c).successRequests = t.successRequests ∧
          (handle64 timeOnly t r isDown c).failedRequests =
            AddInt64 t.failedRequests 1))) ∧
    (∀ x : Int, -9223372036854775808 ≤ x → x < 9223372036854775807 →
      AddInt64 x 1 = x + 1) := by
  obtain ⟨w1, w2, w3⟩ := run64_counters timeOnly s steps hTotal hSuccess hFailed
  have hsplit := filter_classes_length steps
  refine ⟨?_, w1, ?_, ?_, AddInt64_of_range⟩
  · rw [w1, w2, w3, wrapInt64_add_wrap, Int.add_comm, wrapInt64_add_wrap, Int.add_comm, hsplit]
  · intro hlen
    obtain ⟨e1, e2, e3⟩ :=
      run64_counters_exact timeOnly s steps hTotal hSuccess hFailed hlen
    refine ⟨by rw [e1, e2, e3, hsplit], e1, e2, e3, ?_⟩
    intro k hk
    have hk0 : (steps.take k).length = k := by
      rw [List.length_take]; omega
    have hk1 : (steps.take (k + 1)).length = k + 1 := by
      rw [List.length_take]; omega
    obtain ⟨a1, a2, a3⟩ := run64_counters_exact timeOnly s (steps.take k) hTotal hSuccess
      hFailed (by rw [hk0]; omega)
    obtain ⟨b1, b2, b3⟩ := run64_counters_exact timeOnly s (steps.take (k + 1)) hTotal
      hSuccess hFailed (by rw [hk1]; omega)
    rw [a1, a2, a3, b1, b2, b3, hk0, hk1]
    have hsucc : steps.take (k + 1) = steps.take k ++ [steps[k]] := by
      rw [List.take_succ, List.getElem?_eq_getElem hk]
      rfl
    have fS : (steps.take (k + 1)).filter
          (fun st => specClassify st.result = Classification.success) =
        (steps.take k).filter (fun st => specClassify st.result = Classification.success) ++
          [steps[k]].filter
            (fun st => specClassify st.result = Classification.success) := by
      rw [hsucc, List.filter_append]
    have fF : (steps.take (k + 1)).filter
          (fun st => specClassify st.result = Classification.failure) =
        (steps.take k).filter (fun st => specClassify st.result = Classification.failure) ++
          [steps[k]].filter
            (fun st => specClassify st.result = Classification.failure) := by
      rw [hsucc, List.filter_append]
    rw [fS, fF, List.length_append, List.length_append]
    refine ⟨by push_cast; ring, ?_⟩
    cases hc : specClassify (steps[k]).result
    · left
      simp [List.filter_cons, hc]
    · right
      simp [List.filter_cons, hc]
  · intro t r isDown c
    obtain ⟨_, _, _, _, _, k6, k7, k8⟩ := handle64_fields timeOnly t t r isDown c
      rfl rfl rfl rfl rfl
    refine ⟨k6, ?_⟩
    cases hr : specClassify r
    · left; rw [k7, k8, hr]; simp
    · right; rw [k7, k8, hr]; simp

/-- C2, at a concrete run: a failure, a success handled with a stale snapshot, a
failure. -/
theorem counters_balance_witness :
    (run64 timeOnlyUTC (newDomainStats "a.nl" "https://a.nl")
        [⟨Result.err, false, ⟨5000000000, 5000000001⟩⟩,
         ⟨Result.resp 200, false, ⟨6000000000, 6000000001⟩⟩,
         ⟨Result.resp 503, true, ⟨7000000000, 7000000001⟩⟩]).totalRequests = 3 ∧
    (run64 timeOnlyUTC (newDomainStats "a.nl" "https://a.nl")
        [⟨Result.err, false, ⟨5000000000, 5000000001⟩⟩,
         ⟨Result.resp 200, false, ⟨6000000000, 6000000001⟩⟩,
         ⟨Result.resp 503, true, ⟨7000000000, 7000000001⟩⟩]).successRequests = 1 ∧
    (run64 timeOnlyUTC (newDomainStats "a.nl" "https://a.nl")
        [⟨Result.err, false, ⟨5000000000, 5000000001⟩⟩,
         ⟨Result.resp 200, false, ⟨6000000000, 6000000001⟩⟩,
         ⟨Result.resp 503, true, ⟨7000000000, 7000000001⟩⟩]).failedRequests = 2 :=
  have h := (counters_balance timeOnlyUTC (newDomainStats "a.nl" "https://a.nl")
    [⟨Result.err, false, ⟨5000000000, 5000000001⟩⟩,
     ⟨Result.resp 200, false, ⟨6000000000, 6000000001⟩⟩,
     ⟨Result.resp 503, true, ⟨7000000000, 7000000001⟩⟩] rfl rfl rfl).2.2.1 (by decide)
  ⟨h.2.1, h.2.2.1, h.2.2.2.1⟩

/-- C3. The counters follow the classification rule, with the counters as the `int64`
they are: the failure counter gets its `atomic.AddInt64(…, 1)` exactly when the request
returned a transport error or a response with status at least 500 or status 429, and is
left alone otherwise; the success counter gets its `atomic.AddInt64(…, 1)` exactly for
every other response, and is left alone otherwise.  Below the largest `int64` the
increment is plus 1; at the largest `int64` it wraps to the smallest. -/
theorem counters_follow_classification (timeOnly : Int → String) (s : domainStats)
    (r : Result) (isDown : Bool) (c : Clock) :
    (specClassify r = Classification.failure ↔
      (r = Result.err ∨ ∃ code, r = Result.resp code ∧ (code ≥ 500 ∨ code = 429))) ∧
    (specClassify r = Classification.success ↔
      ∃ code, r = Result.resp code ∧ code < 500 ∧ code ≠ 429) ∧
    ((handle64 timeOnly s r isDown c).failedRequests = AddInt64 s.failedRequests 1 ↔
      specClassify r = Classification.failure) ∧
    ((handle64 timeOnly s r isDown c).failedRequests = s.failedRequests ↔
      specClassify r = Classification.success) ∧
    ((handle64 timeOnly s r isDown c).successRequests = AddInt64 s.successRequests 1 ↔
      specClassify r = Classification.success) ∧
    ((handle64 timeOnly s r isDown c).successRequests = s.successRequests ↔
      specClassify r = Classification.failure) ∧
    (∀ x : Int, -9223372036854775808 ≤ x → x < 9223372036854775807 →
      AddInt64 x 1 = x + 1) ∧
    AddInt64 9223372036854775807 1 = -9223372036854775808 := by
  obtain ⟨_, _, _, _, _, _, k7, k8⟩ := handle64_fields timeOnly s s r isDown c
    rfl rfl rfl rfl rfl
  have n1 := AddInt64_ne s.failedRequests
  have n2 := AddInt64_ne s.successRequests
  refine ⟨?_, ?_, ?_, ?_, ?_, ?_, AddInt64_of_range, by decide⟩
  · cases r with
    | err => simp [specClassify]
    | resp code => by_cases hc : code ≥ 500 ∨ code = 429 <;> simp [specClassify, hc]
  · cases r with
    | err => simp [specClassify]
    | resp code =>
      by_cases hc : code ≥ 500 ∨ code = 429
      · simp only [specClassify, hc, if_true]
        constructor
        · intro h; exact absurd h (by decide)
        · rintro ⟨code', h, h1, h2⟩
          cases h
          omega
      · simp only [specClassify, hc, if_false, true_iff]
        exact ⟨code, rfl, by omega, by omega⟩
  · rw [k8]; cases specClassify r <;> simp [n1.symm]
  · rw [k8]; cases specClassify r <;> simp [n1]
  · rw [k7]; cases specClassify r <;> simp [n2.symm]
  · rw [k7]; cases specClassify r <;> simp [n2]

/-! ## The two transitions -/

theorem handle_success_of_up (timeOnly : Int → String) (s : domainStats) (r : Result)
    (isDown : Bool) (c : Clock) (hr : specClassify r = Classification.success)
    (hd : s.siteDown = false) :
    (handle timeOnly s r isDown c).siteDown = false ∧
    (handle timeOnly s r isDown c).statusLog = s.statusLog := by
  cases r with
  | err => simp [specClassify] at hr
  | resp code =>
    by_cases hc : code ≥ 500 ∨ code = 429
    · simp [specClassify, hc] at hr
    · cases isDown <;> simp [handle, flipUp, hd, hc]

theorem handle_failure_of_down (timeOnly : Int → String) (s : domainStats) (r : Result)
    (isDown : Bool) (c : Clock) (hr : specClassify r = Classification.failure)
    (hd : s.siteDown = true) :
    (handle timeOnly s r isDown c).siteDown = true ∧
    (handle timeOnly s r isDown c).siteDownSince = s.siteDownSince ∧
    (handle timeOnly s r isDown c).statusLog = s.statusLog := by
  cases r with
  | err => cases isDown <;> simp [handle, flipDownError, hd]
  | resp code =>
    by_cases hc : code ≥ 500 ∨ code = 429
    · cases isDown <;> simp [handle, flipDownStatus, hd, hc]
    · simp [specClassify, hc] at hr

theorem handle_failure_of_up (timeOnly : Int → String) (s : domainStats) (r : Result)
    (c : Clock) (hr : specClassify r = Classification.failure) (hd : s.siteDown = false) :
    (handle timeOnly s r false c).siteDown = true ∧
    (handle timeOnly s r false c).siteDownSince = c.flip ∧
    (handle timeOnly s r false c).statusLog =
      s.statusLog ++ [downEntry timeOnly c.stamp s.domain r] := by
  cases r with
  | err => simp [handle, flipDownError, hd, downEntry]
  | resp code =>
    by_cases hc : code ≥ 500 ∨ code = 429
    · simp [handle, flipDownStatus, hd, hc, downEntry]
    · simp [specClassify, hc] at hr


theorem entryEdge_downEntry (timeOnly : Int → String) (stamp : Int) (domain : String)
    (r : Result) : entryEdge (downEntry timeOnly stamp domain r) = some Edge.DOWN := by
  cases r with
  | err => exact entryEdge_downErrorMsg timeOnly stamp domain
  | resp code => exact entryEdge_downStatusMsg timeOnly stamp domain code

/-- C4. A failure handled by a worker whose snapshot is the current flag: when the flag
is UP, afterwards the flag is DOWN, down-since is the clock reading of the flip and the
log is the old log followed by exactly one entry, a DOWN entry; when the flag is already
DOWN (whatever the snapshot), flag, down-since and log are unchanged. -/
theorem up_to_down (timeOnly : Int → String) (s : domainStats) (r : Result) (c : Clock)
    (hr : specClassify r = Classification.failure) :
    (s.siteDown = false →
      (handle timeOnly s r s.siteDown c).siteDown = true ∧
      (handle timeOnly s r s.siteDown c).siteDownSince = c.flip ∧
      (handle timeOnly s r s.siteDown c).statusLog =
        s.statusLog ++ [downEntry timeOnly c.stamp s.domain r] ∧
      entryEdge (downEntry timeOnly c.stamp s.domain r) = some Edge.DOWN) ∧
    (s.siteDown = true → ∀ isDown : Bool,
      (handle timeOnly s r isDown c).siteDown = true ∧
      (handle timeOnly s r isDown c).siteDownSince = s.siteDownSince ∧
      (handle timeOnly s r isDown c).statusLog = s.statusLog) := by
  constructor
  · intro hd
    rw [hd]
    obtain ⟨h1, h2, h3⟩ := handle_failure_of_up timeOnly s r c hr hd
    exact ⟨h1, h2, h3, entryEdge_downEntry timeOnly c.stamp s.domain r⟩
  · intro hd isDown
    exact handle_failure_of_down timeOnly s r isDown c hr hd

/-- C4, at a concrete state: a response with status 503 on a fresh domain. -/
theorem up_to_down_witness :
    (handle timeOnlyUTC (newDomainStats "a.nl" "https://a.nl") (Result.resp 503) false
        ⟨5000000000, 5000000001⟩).statusLog = ["[00:00:05] 💥 a.nl is DOWN (status 503)!"] :=
  ((up_to_down timeOnlyUTC (newDomainStats "a.nl" "https://a.nl") (Result.resp 503)
    ⟨5000000000, 5000000001⟩ (by decide)).1 rfl).2.2.1

theorem Since_of_nonneg (now t : Int) (h0 : 0 ≤ now - t)
    (h1 : now - t ≤ 9223372036854775807) : Since now t = now - t := by
  unfold Since Time.Sub maxDuration minDuration
  simp only []
  rw [if_neg (show ¬ (now - t > 9223372036854775807) by omega),
    if_neg (show ¬ (now - t < -9223372036854775808) by omega)]

theorem Round_Second_of_nonneg (e : Int) (h0 : 0 ≤ e)
    (h1 : e ≤ 9223372036854775807 - 1000000000) :
    Duration.Round e Second = (e + 500000000) / 1000000000 * 1000000000 := by
  unfold Duration.Round lessThanHalf toUint64 wrapInt64 maxDuration Second
  rw [Int.tmod_eq_emod h0 (by decide)]
  simp only [show ¬ ((1000000000 : Int) ≤ 0) by decide, if_false, show ¬ (e < 0) by omega]
  by_cases hlt : (e % 1000000000 % 18446744073709551616 +
      e % 1000000000 % 18446744073709551616) % 18446744073709551616 <
      1000000000 % 18446744073709551616
  · simp only [hlt, decide_True, if_true]
    omega
  · simp only [hlt, decide_False, Bool.false_eq_true, if_false]
    have h2 : (e + 1000000000 - e % 1000000000 + 9223372036854775808) %
        18446744073709551616 - 9223372036854775808 = e + 1000000000 - e % 1000000000 := by
      omega
    rw [h2]
    have h3 : e + 1000000000 - e % 1000000000 > e := by omega
    simp only [h3, if_true]
    omega

/-- C5, as amended. A success handled by a worker whose snapshot is the current flag:
when the flag is DOWN, afterwards the flag is UP and the log is the old log followed by
exactly one entry, an UP entry, whose text carries `time.Since(down-since)` rounded by
`Round(time.Second)`; for an elapsed time `now - down-since` from 0 up to the largest
duration less one second that is the multiple of a second nearest to it (halves go up).
When the flag is already UP (whatever the snapshot), flag and log are unchanged. -/
theorem down_to_up (timeOnly : Int → String) (s : domainStats) (r : Result) (c : Clock)
    (hr : specClassify r = Classification.success) :
    (s.siteDown = true →
      (handle timeOnly s r s.siteDown c).siteDown = false ∧
      (handle timeOnly s r s.siteDown c).statusLog =
        s.statusLog ++ [onlineMsg timeOnly c.stamp s.domain
          (Duration.Round (Since c.flip s.siteDownSince) Second)] ∧
      entryEdge (onlineMsg timeOnly c.stamp s.domain
          (Duration.Round (Since c.flip s.siteDownSince) Second)) = some Edge.UP ∧
      (0 ≤ c.flip - s.siteDownSince → c.flip - s.siteDownSince ≤ maxDuration - Second →
        Duration.Round (Since c.flip s.siteDownSince) Second =
          (c.flip - s.siteDownSince + 500000000) / 1000000000 * 1000000000)) ∧
    (s.siteDown = false → ∀ isDown : Bool,
      (handle timeOnly s r isDown c).siteDown = false ∧
      (handle timeOnly s r isDown c).statusLog = s.statusLog) := by
  cases r with
  | err => simp [specClassify] at hr
  | resp code =>
    by_cases hc : code ≥ 500 ∨ code = 429
    · simp [specClassify, hc] at hr
    · constructor
      · intro hd
        refine ⟨?_, ?_, entryEdge_onlineMsg _ _ _ _, ?_⟩
        · simp [handle, flipUp, hd, hc]
        · simp [handle, flipUp, hd, hc]
        · intro h0 h1
          have h2 : c.flip - s.siteDownSince ≤ 9223372036854775807 - 1000000000 := h1
          rw [Since_of_nonneg _ _ h0 (by omega)]
          exact Round_Second_of_nonneg _ h0 h2
      · intro hd isDown
        exact handle_success_of_up timeOnly s (Result.resp code) isDown c hr hd

/-- C5 as amended, at a concrete state: a fresh domain that went down at second 1
answers with status 200 at second 2.4; the entry says one second. -/
theorem down_to_up_witness :
    (handle timeOnlyUTC
        (handle timeOnlyUTC (newDomainStats "a.nl" "https://a.nl") Result.err false
          ⟨1000000000, 1000000001⟩)
        (Result.resp 200) true ⟨2400000000, 2400000001⟩).statusLog =
      ["[00:00:01] 💥 a.nl is DOWN (connection error)!",
       "[00:00:02] ✅ a.nl is weer ONLINE (was 1s plat). Re-engaging..."] :=
  ((down_to_up timeOnlyUTC
      (handle timeOnlyUTC (newDomainStats "a.nl" "https://a.nl") Result.err false
        ⟨1000000000, 1000000001⟩)
      (Result.resp 200) ⟨2400000000, 2400000001⟩ (by decide)).1 (by decide)).2.1.trans
    (by decide)

/-- C5 as stated fails: a fresh domain goes down at second 1 (transport error) and
answers with status 200 at second 2.4, so `now - down-since` is 1.4 s; the entry the
flip to UP appends is not the entry that carries 1.4 s: it reads `was 1s plat`, the
other would read `was 1.4s plat`. -/
theorem down_to_up_not_exact :
    (handle timeOnlyUTC (newDomainStats "a.nl" "https://a.nl") Result.err false
        ⟨1000000000, 1000000001⟩).siteDown = true ∧
    (handle timeOnlyUTC (newDomainStats "a.nl" "https://a.nl") Result.err false
        ⟨1000000000, 1000000001⟩).siteDownSince = 1000000000 ∧
    (handle timeOnlyUTC
        (handle timeOnlyUTC (newDomainStats "a.nl" "https://a.nl") Result.err false
          ⟨1000000000, 1000000001⟩)
        (Result.resp 200) true ⟨2400000000, 2400000001⟩).statusLog ≠
      (handle timeOnlyUTC (newDomainStats "a.nl" "https://a.nl") Result.err false
          ⟨1000000000, 1000000001⟩).statusLog ++
        [onlineMsg timeOnlyUTC 2400000001 "a.nl" (2400000000 - 1000000000)] ∧
    (handle timeOnlyUTC
        (handle timeOnlyUTC (newDomainStats "a.nl" "https://a.nl") Result.err false
          ⟨1000000000, 1000000001⟩)
        (Result.resp 200) true ⟨2400000000, 2400000001⟩).statusLog =
      ["[00:00:01] 💥 a.nl is DOWN (connection error)!",
       "[00:00:02] ✅ a.nl is weer ONLINE (was 1s plat). Re-engaging..."] ∧
    onlineMsg timeOnlyUTC 2400000001 "a.nl" (2400000000 - 1000000000) =
      "[00:00:02] ✅ a.nl is weer ONLINE (was 1.4s plat). Re-engaging..." := by
  decide

/-! ## Down-since -/

theorem downSince_handle (timeOnly : Int → String) (s : domainStats) (r : Result)
    (isDown : Bool) (c : Clock) (hc : c.flip ≠ 0)
    (h : (s.siteDownSince ≠ 0 ↔ s.statusLog ≠ []) ∧ (s.siteDown = true → s.statusLog ≠ [])) :
    ((handle timeOnly s r isDown c).siteDownSince ≠ 0 ↔
      (handle timeOnly s r isDown c).statusLog ≠ []) ∧
    ((handle timeOnly s r isDown c).siteDown = true →
      (handle timeOnly s r isDown c).statusLog ≠ []) := by
  rcases handle_flag_log timeOnly s r isDown c with ⟨hf, hl, ht⟩ |
    ⟨_, _, ht, _, _, m, _, hl⟩ | ⟨hf, _, ht, _, _, m, _, hl⟩
  · rw [hl, ht, hf]; exact h
  · rw [hl, ht]; simp [hc]
  · rw [hl, ht]
    refine ⟨⟨fun _ => by simp, fun _ => h.1.mpr (h.2 hf)⟩, fun _ => by simp⟩

theorem downSince_run (timeOnly : Int → String) (steps : List Step) :
    ∀ s : domainStats, (∀ st ∈ steps, st.clock.flip ≠ 0) →
    ((s.siteDownSince ≠ 0 ↔ s.statusLog ≠ []) ∧ (s.siteDown = true → s.statusLog ≠ [])) →
    (((run timeOnly s steps).siteDownSince ≠ 0 ↔ (run timeOnly s steps).statusLog ≠ []) ∧
      ((run timeOnly s steps).siteDown = true → (run timeOnly s steps).statusLog ≠ [])) := by
  induction steps with
  | nil => intro s _ h; exact h
  | cons st steps ih =>
    intro s hc h
    rw [run_cons]
    exact ih _ (fun x hx => hc x (List.mem_cons_of_mem _ hx))
      (downSince_handle timeOnly s st.result st.isDown st.clock
        (hc st (List.mem_cons_self _ _)) h)

theorem downSince_downFlips (timeOnly : Int → String) (steps : List Step) :
    ∀ s : domainStats,
    (run timeOnly s steps).siteDownSince =
      (downFlips timeOnly s steps).getLast?.getD s.siteDownSince := by
  induction steps with
  | nil => intro s; rfl
  | cons st steps ih =>
    intro s
    rw [run_cons, ih, downFlips, List.getLast?_append]
    rcases handle_flag_log timeOnly s st.result st.isDown st.clock with ⟨hf, _, ht⟩ |
      ⟨hf, hf', ht, _⟩ | ⟨hf, hf', ht, _⟩
    · rw [hf, ht]
      cases s.siteDown <;> cases (downFlips timeOnly
        (handle timeOnly s st.result st.isDown st.clock) steps).getLast? <;> simp
    · rw [hf, hf', ht]
      cases (downFlips timeOnly
        (handle timeOnly s st.result st.isDown st.clock) steps).getLast? <;> simp
    · rw [hf, hf', ht]
      cases (downFlips timeOnly
        (handle timeOnly s st.result st.isDown st.clock) steps).getLast? <;> simp

theorem downSince_kept (timeOnly : Int → String) (s : domainStats) (r : Result)
    (isDown : Bool) (c : Clock)
    (h : s.siteDown = true ∨ (handle timeOnly s r isDown c).siteDown = false) :
    (handle timeOnly s r isDown c).siteDownSince = s.siteDownSince := by
  rcases handle_flag_log timeOnly s r isDown c with ⟨_, _, ht⟩ |
    ⟨hf, hf', _, _⟩ | ⟨_, _, ht, _⟩
  · exact ht
  · rcases h with h | h
    · rw [hf] at h; exact Bool.noConfusion h
    · rw [hf'] at h; exact Bool.noConfusion h
  · exact ht

/-- C6, as amended. In every state reached from the initial state by handling any finite
sequence of outcomes whose clock readings are not the zero time: if the flag is DOWN,
down-since holds a recorded timestamp; down-since holds a recorded timestamp exactly
when the transition log is not empty, that is, from the first flip to DOWN on; and
down-since is the clock reading stored by the last flip to DOWN of the run (the zero
time when there was none).  A handled outcome that finds the flag DOWN, or that leaves
it UP, leaves down-since as it was: a flip back to UP does not reset it, so after a
recovery the flag is UP while down-since still holds the time of the last flip to
DOWN. -/
theorem downSince_recorded (timeOnly : Int → String) (domain targetURL : String)
    (steps : List Step) (hclock : ∀ st ∈ steps, st.clock.flip ≠ 0) :
    ((run timeOnly (newDomainStats domain targetURL) steps).siteDown = true →
      (run timeOnly (newDomainStats domain targetURL) steps).siteDownSince ≠ 0) ∧
    ((run timeOnly (newDomainStats domain targetURL) steps).siteDownSince ≠ 0 ↔
      (run timeOnly (newDomainStats domain targetURL) steps).statusLog ≠ []) ∧
    (run timeOnly (newDomainStats domain targetURL) steps).siteDownSince =
      (downFlips timeOnly (newDomainStats domain targetURL) steps).getLast?.getD 0 ∧
    (∀ (s : domainStats) (r : Result) (isDown : Bool) (c : Clock),
      (s.siteDown = true ∨ (handle timeOnly s r isDown c).siteDown = false) →
      (handle timeOnly s r isDown c).siteDownSince = s.siteDownSince) := by
  have h := downSince_run timeOnly steps (newDomainStats domain targetURL) hclock
    (by simp [newDomainStats])
  exact ⟨fun hd => h.1.mpr (h.2 hd), h.1,
    downSince_downFlips timeOnly steps (newDomainStats domain targetURL),
    downSince_kept timeOnly⟩

/-- C6 as amended, at a concrete run: a transport error at second 5, a response 200 at
second 9, a response 503 at second 12 and a response 200 at second 20, each handled with
the current flag as snapshot.  The flag is UP again and down-since is the reading of the
second flip to DOWN. -/
theorem downSince_recorded_witness :
    (run timeOnlyUTC (newDomainStats "a.nl" "https://a.nl")
        [⟨Result.err, false, ⟨5000000000, 5000000001⟩⟩,
         ⟨Result.resp 200, true, ⟨9000000000, 9000000001⟩⟩,
         ⟨Result.resp 503, false, ⟨12000000000, 12000000001⟩⟩,
         ⟨Result.resp 200, true, ⟨20000000000, 20000000001⟩⟩]).siteDownSince =
      12000000000 :=
  (downSince_recorded timeOnlyUTC "a.nl" "https://a.nl"
    [⟨Result.err, false, ⟨5000000000, 5000000001⟩⟩,
     ⟨Result.resp 200, true, ⟨9000000000, 9000000001⟩⟩,
     ⟨Result.resp 503, false, ⟨12000000000, 12000000001⟩⟩,
     ⟨Result.resp 200, true, ⟨20000000000, 20000000001⟩⟩] (by decide)).2.2.1.trans
    (by decide)

/-- C6 as stated fails: after a transport error at second 5 and a response 200 at second
9, each handled with the current flag as snapshot, the flag is UP and down-since still
holds the timestamp of second 5. -/
theorem downSince_stale_after_recovery :
    ¬ ((run timeOnlyUTC (newDomainStats "a.nl" "https://a.nl")
          [⟨Result.err, false, ⟨5000000000, 5000000001⟩⟩,
           ⟨Result.resp 200, true, ⟨9000000000, 9000000001⟩⟩]).siteDownSince ≠ 0 ↔
        (run timeOnlyUTC (newDomainStats "a.nl" "https://a.nl")
          [⟨Result.err, false, ⟨5000000000, 5000000001⟩⟩,
           ⟨Result.resp 200, true, ⟨9000000000, 9000000001⟩⟩]).siteDown = true) := by
  decide

/-! ## Whole runs -/

theorem run_successes (timeOnly : Int → String) (steps : List Step) :
    ∀ s : domainStats, s.siteDown = false →
    (∀ st ∈ steps, specClassify st.result = Classification.success) →
    (run timeOnly s steps).siteDown = false ∧
    (run timeOnly s steps).statusLog = s.statusLog := by
  induction steps with
  | nil => intro s hd _; exact ⟨hd, rfl⟩
  | cons st steps ih =>
    intro s hd hs
    rw [run_cons]
    obtain ⟨h1, h2⟩ := handle_success_of_up timeOnly s st.result st.isDown st.clock
      (hs st (List.mem_cons_self _ _)) hd
    obtain ⟨k1, k2⟩ := ih _ h1 (fun x hx => hs x (List.mem_cons_of_mem _ hx))
    exact ⟨k1, k2.trans h2⟩

/-- C7. From the initial state, after `K` handled outcomes that are all successes,
whatever their order and their snapshots: `total = K`, `success = K`, `failure = 0`, the
flag is UP and the transition log is empty. -/
theorem all_success (timeOnly : Int → String) (domain targetURL : String)
    (steps : List Step)
    (hs : ∀ st ∈ steps, specClassify st.result = Classification.success) :
    (run timeOnly (newDomainStats domain targetURL) steps).totalRequests = steps.length ∧
    (run timeOnly (newDomainStats domain targetURL) steps).successRequests = steps.length ∧
    (run timeOnly (newDomainStats domain targetURL) steps).failedRequests = 0 ∧
    (run timeOnly (newDomainStats domain targetURL) steps).siteDown = false ∧
    (run timeOnly (newDomainStats domain targetURL) steps).statusLog = [] := by
  obtain ⟨h1, h2, h3⟩ := run_counters timeOnly steps (newDomainStats domain targetURL)
  obtain ⟨k1, k2⟩ := run_successes timeOnly steps (newDomainStats domain targetURL) rfl hs
  have f1 : steps.filter (fun st => specClassify st.result = Classification.success) =
      steps := by
    rw [List.filter_eq_self]
    intro st hst
    simp [hs st hst]
  have f2 : steps.filter (fun st => specClassify st.result = Classification.failure) =
      [] := by
    rw [List.filter_eq_nil_iff]
    intro st hst
    simp [hs st hst]
  rw [f1] at h2
  rw [f2] at h3
  refine ⟨?_, ?_, ?_, k1, k2⟩
  · rw [h1]; simp [newDomainStats]
  · rw [h2]; simp [newDomainStats]
  · rw [h3]; simp [newDomainStats]

/-- C7, at a concrete run: three successes, one of them handled with snapshot DOWN. -/
theorem all_success_witness :
    (run timeOnlyUTC (newDomainStats "a.nl" "https://a.nl")
        [⟨Result.resp 200, false, ⟨5000000000, 5000000001⟩⟩,
         ⟨Result.resp 404, true, ⟨6000000000, 6000000001⟩⟩,
         ⟨Result.resp 301, false, ⟨7000000000, 7000000001⟩⟩]).successRequests = 3 :=
  (all_success timeOnlyUTC "a.nl" "https://a.nl"
    [⟨Result.resp 200, false, ⟨5000000000, 5000000001⟩⟩,
     ⟨Result.resp 404, true, ⟨6000000000, 6000000001⟩⟩,
     ⟨Result.resp 301, false, ⟨7000000000, 7000000001⟩⟩] (by decide)).2.1

theorem runSeq_cons (timeOnly : Int → String) (s : domainStats) (rc : Result × Clock)
    (rs : List (Result × Clock)) :
    runSeq timeOnly s (rc :: rs) = runSeq timeOnly (iteration timeOnly s rc.1 rc.2) rs := rfl

theorem runSeq_append (timeOnly : Int → String) (s : domainStats)
    (xs ys : List (Result × Clock)) :
    runSeq timeOnly s (xs ++ ys) = runSeq timeOnly (runSeq timeOnly s xs) ys := by
  simp [runSeq, List.foldl_append]

theorem LogInv_runSeq (timeOnly : Int → String) (rs : List (Result × Clock)) :
    ∀ s : domainStats, LogInv s → LogInv (runSeq timeOnly s rs) := by
  induction rs with
  | nil => intro s h; exact h
  | cons rc rs ih =>
    intro s h
    rw [runSeq_cons]
    exact ih _ (LogInv_handle timeOnly s rc.1 s.siteDown rc.2 h)

theorem iteration_failure_down (timeOnly : Int → String) (s : domainStats) (r : Result)
    (c : Clock) (hr : specClassify r = Classification.failure) :
    (iteration timeOnly s r c).siteDown = true := by
  unfold iteration
  cases hd : s.siteDown with
  | false => exact (handle_failure_of_up timeOnly s r c hr hd).1
  | true => exact (handle_failure_of_down timeOnly s r true c hr hd).1

theorem runSeq_failures_down (timeOnly : Int → String) (rs : List (Result × Clock)) :
    ∀ s : domainStats, (∀ rc ∈ rs, specClassify rc.1 = Classification.failure) →
    (rs ≠ [] ∨ s.siteDown = true) → (runSeq timeOnly s rs).siteDown = true := by
  induction rs with
  | nil =>
    intro s _ h
    rcases h with h | h
    · exact absurd rfl h
    · exact h
  | cons rc rs ih =>
    intro s hf _
    rw [runSeq_cons]
    exact ih _ (fun x hx => hf x (List.mem_cons_of_mem _ hx))
      (Or.inr (iteration_failure_down timeOnly s rc.1 rc.2 (hf rc (List.mem_cons_self _ _))))

/-- C8. From the initial state, after outcomes handled one after another (each
iteration reads the current flag as its snapshot) that end with a non-empty run of
failures: the flag is DOWN, the transition log is not empty and its last entry is a DOWN
entry. -/
theorem ends_down (timeOnly : Int → String) (domain targetURL : String)
    (before failures : List (Result × Clock)) (hne : failures ≠ [])
    (hf : ∀ rc ∈ failures, specClassify rc.1 = Classification.failure) :
    (runSeq timeOnly (newDomainStats domain targetURL) (before ++ failures)).siteDown = true ∧
    (runSeq timeOnly (newDomainStats domain targetURL) (before ++ failures)).statusLog ≠ [] ∧
    ∃ e, (runSeq timeOnly (newDomainStats domain targetURL)
        (before ++ failures)).statusLog.getLast? = some e ∧
      entryEdge e = some Edge.DOWN := by
  have hinv := LogInv_runSeq timeOnly (before ++ failures) _ (LogInv_new domain targetURL)
  have hd : (runSeq timeOnly (newDomainStats domain targetURL)
      (before ++ failures)).siteDown = true := by
    rw [runSeq_append]
    exact runSeq_failures_down timeOnly failures _ hf (Or.inl hne)
  have hlog : (runSeq timeOnly (newDomainStats domain targetURL)
      (before ++ failures)).statusLog ≠ [] := by
    intro he
    have := hinv.empty he
    rw [hd] at this
    exact Bool.noConfusion this
  refine ⟨hd, hlog, ?_⟩
  obtain ⟨e, he⟩ := Option.isSome_iff_exists.mp
    (List.getLast?_isSome.mpr hlog)
  refine ⟨e, he, ?_⟩
  have := hinv.last e he
  rw [hd] at this
  exact this

/-- C8, at a concrete run: a success, a failure, a success, then two failures. -/
theorem ends_down_witness :
    (runSeq timeOnlyUTC (newDomainStats "a.nl" "https://a.nl")
        ([(Result.resp 200, ⟨1000000000, 1000000001⟩),
          (Result.resp 500, ⟨2000000000, 2000000001⟩),
          (Result.resp 200, ⟨3000000000, 3000000001⟩)] ++
         [(Result.err, ⟨4000000000, 4000000001⟩),
          (Result.resp 429, ⟨5000000000, 5000000001⟩)])).siteDown = true :=
  (ends_down timeOnlyUTC "a.nl" "https://a.nl"
    [(Result.resp 200, ⟨1000000000, 1000000001⟩),
     (Result.resp 500, ⟨2000000000, 2000000001⟩),
     (Result.resp 200, ⟨3000000000, 3000000001⟩)]
    [(Result.err, ⟨4000000000, 4000000001⟩),
     (Result.resp 429, ⟨5000000000, 5000000001⟩)] (by decide) (by decide)).1

/-! ## The report -/

theorem foldl_append_singleton (f : String → String) (l : List String) :
    ∀ acc : List String, l.foldl (fun acc x => acc ++ [f x]) acc = acc ++ l.map f := by
  induction l with
  | nil => intro acc; simp
  | cons a l ih => intro acc; simp [ih]

theorem reportDomain_some (reportLines : List String) (s : domainStats) :
    reportDomain reportLines (some s) = reportLines ++ specReportBlock s := by
  unfold reportDomain reportLog specReportBlock
  by_cases h : s.statusLog = []
  · simp [h]
  · have hlen : ¬ (s.statusLog.length = 0) := fun h0 => h (List.length_eq_zero.mp h0)
    simp [h, hlen, foldl_append_singleton (fun log => "   " ++ log)]

theorem foldl_reportDomain (stats : List (Option domainStats)) :
    ∀ reportLines : List String,
    stats.foldl reportDomain reportLines =
      reportLines ++ ((stats.filterMap id).map specReportBlock).flatten := by
  induction stats with
  | nil => intro acc; simp
  | cons o stats ih =>
    intro acc
    cases o with
    | none => simp [ih, reportDomain]
    | some s => simp [ih, reportDomain_some]

/-- C9. The report lines are the three header lines (title with the formatted clock
reading, duration in minutes, separator of 50 dashes) followed by one block per non-nil
domain state, in the order of the list; the block of a state is `specReportBlock`: name
line, the three counts of that state, log heading, then the placeholder when its log is
empty and otherwise every entry of its log, indented, in order.  The lines are thereby a
function of the states, the minutes and the one clock reading. -/
theorem generateReport_lines (rfc1123 : Int → String) (stats : List (Option domainStats))
    (minutes : Int) (now : Int) :
    generateReport rfc1123 stats minutes now =
      ["SITESTRESS RAPPORT - " ++ rfc1123 now,
       "Duur test: " ++ fmtD minutes ++ " minuten",
       "--------------------------------------------------"] ++
      ((stats.filterMap id).map specReportBlock).flatten := by
  unfold generateReport
  rw [foldl_reportDomain]
  rfl

/-! ## The worker fan-out -/

theorem foldl_range_append (n i : Nat) :
    ∀ launched : List Nat,
    (List.range n).foldl (fun launched _ => launched ++ [i]) launched =
      launched ++ List.replicate n i := by
  induction n with
  | zero => intro acc; simp
  | succ n ih =>
    intro acc
    rw [List.range_succ, List.foldl_append, ih]
    simp [List.replicate_succ']

theorem launch_enumFrom (N : Nat) (allStats : List (Option domainStats)) :
    ∀ (k : Nat) (launched : List Nat), (∀ o ∈ allStats, o ≠ none) →
    (allStats.enumFrom k).foldl (fun launched p =>
      match p.2 with
      | none => launched
      | some _ => (List.range N).foldl (fun launched _ => launched ++ [p.1]) launched)
      launched =
    launched ++ ((List.range allStats.length).map (fun j => List.replicate N (k + j))).flatten := by
  induction allStats with
  | nil => intro k acc _; simp
  | cons o l ih =>
    intro k acc hall
    have ho : o ≠ none := hall o (List.mem_cons_self _ _)
    obtain ⟨x, rfl⟩ := Option.ne_none_iff_exists'.mp ho
    rw [List.enumFrom_cons, List.foldl_cons]
    simp only []
    rw [foldl_range_append, ih (k + 1) _ (fun o ho => hall o (List.mem_cons_of_mem _ ho))]
    rw [List.length_cons, List.range_succ_eq_map, List.map_cons, List.flatten_cons,
      List.map_map, List.append_assoc]
    congr 2
    apply congrArg
    apply List.map_congr_left
    intro j _
    simp only [Function.comp, Nat.add_zero]
    congr 1
    omega

theorem count_flatten_replicate (N i : Nat) (n : Nat) :
    List.count i ((List.range n).map (fun j => List.replicate N j)).flatten =
      if i < n then N else 0 := by
  induction n with
  | zero => simp
  | succ n ih =>
    rw [List.range_succ, List.map_append, List.flatten_append, List.count_append, ih]
    simp only [List.map_cons, List.map_nil, List.flatten_cons, List.flatten_nil,
      List.append_nil, List.count_replicate]
    by_cases h1 : i < n
    · have h2 : ¬ (n = i) := by omega
      have h3 : i < n + 1 := by omega
      simp [h1, h2, h3]
    · by_cases h2 : n = i
      · have h3 : i < n + 1 := by omega
        simp [h1, h2]
      · have h3 : ¬ (i < n + 1) := by omega
        simp [h1, h2, h3]

theorem length_flatten_replicate (N : Nat) (n : Nat) :
    ((List.range n).map (fun j => List.replicate N j)).flatten.length = n * N := by
  induction n with
  | zero => simp
  | succ n ih =>
    rw [List.range_succ, List.map_append, List.flatten_append, List.length_append, ih]
    simp [Nat.succ_mul]

theorem launchWorkers_eq (N : Nat) (allStats : List (Option domainStats))
    (hall : ∀ o ∈ allStats, o ≠ none) :
    launchWorkers allStats N =
      ((List.range allStats.length).map (fun j => List.replicate N j)).flatten := by
  unfold launchWorkers List.enum
  rw [launch_enumFrom N allStats 0 [] hall]
  simp

theorem chooseTargetURL_some (newRequest probe : String → Bool) (domain : String)
    (h1 : newRequest ("https://" ++ domain) = true)
    (h2 : newRequest ("http://" ++ domain) = true) :
    ∃ targetURL, chooseTargetURL newRequest probe domain = some targetURL := by
  unfold chooseTargetURL
  simp only [probeURLs, h1, h2, Bool.not_true, Bool.false_eq_true, if_false]
  cases probe ("https://" ++ domain)
  · cases probe ("http://" ++ domain)
    · exact ⟨_, rfl⟩
    · exact ⟨_, rfl⟩
  · exact ⟨_, rfl⟩

theorem chooseTargetURL_panics (newRequest probe : String → Bool) (domain : String)
    (h : newRequest ("https://" ++ domain) = false) :
    chooseTargetURL newRequest probe domain = none := by
  unfold chooseTargetURL
  simp [probeURLs, h]

theorem initialChecksFrom_some (newRequest : String → Bool) (probe : Nat → String → Bool)
    (domains : List String) :
    ∀ i : Nat,
    (∀ d ∈ domains, newRequest ("https://" ++ d) = true ∧
      newRequest ("http://" ++ d) = true) →
    ∃ allStats, initialChecksFrom newRequest probe i domains = some allStats ∧
      allStats.length = domains.length ∧ ∀ o ∈ allStats, o ≠ none := by
  induction domains with
  | nil => intro i _; exact ⟨[], rfl, rfl, by simp⟩
  | cons d ds ih =>
    intro i h
    obtain ⟨h1, h2⟩ := h d (List.mem_cons_self _ _)
    obtain ⟨url, hurl⟩ := chooseTargetURL_some newRequest (probe i) d h1 h2
    obtain ⟨rest, hrest, hlen, hall⟩ := ih (i + 1)
      (fun x hx => h x (List.mem_cons_of_mem _ hx))
    refine ⟨some (newDomainStats d url) :: rest, ?_, ?_, ?_⟩
    · simp only [initialChecksFrom, hurl, hrest]
    · simp [hlen]
    · intro o ho
      rcases List.mem_cons.mp ho with ho | ho
      · rw [ho]; simp
      · exact hall o ho

/-- When every URL of the initial checks yields a request, a run over `n ≥ 1` domains
launches its workers as C10 says: the per-domain worker count `N` is 1000 when `n = 1`
and 500 otherwise, every domain gets exactly `N` workers and nothing else gets one, so
`n * N` workers are launched, and the transport allows `N` idle connections per host and
`n * N` in total. -/
theorem worker_fanout (newRequest : String → Bool) (probe : Nat → String → Bool)
    (domains : List String) (hn : 1 ≤ domains.length)
    (hreq : ∀ d ∈ domains, newRequest ("https://" ++ d) = true ∧
      newRequest ("http://" ++ d) = true) :
    workersPerDomain domains = (if domains.length = 1 then 1000 else 500) ∧
    (∀ single several : List String, single.length = 1 → several.length > 1 →
      workersPerDomain several < workersPerDomain single) ∧
    (∃ workers, startWorkers newRequest probe domains = some workers ∧
      (∀ i, List.count i workers =
        if i < domains.length then workersPerDomain domains else 0) ∧
      workers.length = domains.length * workersPerDomain domains) ∧
    (newTransport domains).MaxIdleConnsPerHost = workersPerDomain domains ∧
    (newTransport domains).MaxIdleConns = domains.length * workersPerDomain domains := by
  obtain ⟨allStats, hinit, hlen, hall⟩ :=
    initialChecksFrom_some newRequest probe domains 0 hreq
  have hw := launchWorkers_eq (workersPerDomain domains) allStats hall
  rw [hlen] at hw
  refine ⟨?_, ?_, ?_, rfl, ?_⟩
  · unfold workersPerDomain
    by_cases h : domains.length = 1
    · simp [h]
    · have h2 : domains.length > 1 := by omega
      simp [h, h2]
  · intro single several h1 h2
    simp [workersPerDomain, h1, h2]
  · refine ⟨launchWorkers allStats (workersPerDomain domains), ?_, ?_, ?_⟩
    · simp only [startWorkers, initialChecks, hinit]
    · intro i; rw [hw]; exact count_flatten_replicate _ i _
    · rw [hw]; exact length_flatten_replicate _ _
  · simp [newTransport, Nat.mul_comm]

/-- The fan-out at two concrete runs: one domain gets 1000 workers, each of two domains
500. -/
theorem worker_fanout_witness :
    workersPerDomain ["a.nl"] = 1000 ∧ workersPerDomain ["a.nl", "b.nl"] = 500 :=
  ⟨(worker_fanout newRequestNoSpace (fun _ _ => true) ["a.nl"] (by decide) (by decide)).1,
   (worker_fanout newRequestNoSpace (fun _ _ => false) ["a.nl", "b.nl"] (by decide)
     (by decide)).1⟩

/-- A domain whose `https` URL yields no request ends the program in the initial checks,
whatever comes after it in the list: no worker is launched. -/
theorem startWorkers_panics (newRequest : String → Bool) (probe : Nat → String → Bool)
    (domain : String) (domains : List String)
    (h : newRequest ("https://" ++ domain) = false) :
    startWorkers newRequest probe (domain :: domains) = none := by
  simp only [startWorkers, initialChecks, initialChecksFrom,
    chooseTargetURL_panics newRequest (probe 0) domain h]

/-- C10 fails on the code at `-d "a b" -t 1`.  `normalizeDomain` keeps the domain `a b`,
the claim asks for 1000 workers for this one domain, and the run panics in the initial
check (no request for `https://a b`, error discarded at line 176, nil dereferenced at
line 177), whatever the probes return: no worker is launched. -/
theorem worker_fanout_panics :
    normalizeDomain "a b" = "a b" ∧
    workersPerDomain ["a b"] = 1000 ∧
    newRequestNoSpace "https://a b" = false ∧
    ∀ probe : Nat → String → Bool, startWorkers newRequestNoSpace probe ["a b"] = none := by
  refine ⟨by decide, by decide, by decide, ?_⟩
  intro probe
  exact startWorkers_panics newRequestNoSpace probe "a b" [] (by decide)

/-! ## Interleaved workers

Every interleaving of the atomic actions of any number of workers is covered by `run`
and `run64`: the shared record has the flag, the time stamp and the log of the state
that `run` reaches on the steps whose locked section has been passed, each with the
snapshot its worker took, its counters are those of `run` less the increments still
owed, wrapped to `int64`, and once no worker is inside the loop body the shared record
is the one `run64` reaches. -/

theorem sum_map_set (f : Pc → Int) (l : List Pc) :
    ∀ (w : Nat) (pc x : Pc), l.get? w = some pc →
    ((l.set w x).map f).sum = (l.map f).sum - f pc + f x := by
  induction l with
  | nil => intro w pc x h; simp at h
  | cons a l ih =>
    intro w pc x h
    cases w with
    | zero =>
      simp at h
      subst h
      simp only [List.set_cons_zero, List.map_cons, List.sum_cons]
      omega
    | succ w =>
      simp only [List.get?_cons_succ] at h
      simp only [List.set_cons_succ, List.map_cons, List.sum_cons, ih w pc x h]
      omega

theorem lockedSection_lags (timeOnly : Int → String) (s t : domainStats) (r : Result)
    (isDown : Bool) (c : Clock) (hd : s.domain = t.domain) (hu : s.targetURL = t.targetURL)
    (hf : s.siteDown = t.siteDown) (hs : s.siteDownSince = t.siteDownSince)
    (hl : s.statusLog = t.statusLog) :
    (lockedSection timeOnly s r isDown c).domain = (handle timeOnly t r isDown c).domain ∧
    (lockedSection timeOnly s r isDown c).targetURL =
      (handle timeOnly t r isDown c).targetURL ∧
    (lockedSection timeOnly s r isDown c).siteDown =
      (handle timeOnly t r isDown c).siteDown ∧
    (lockedSection timeOnly s r isDown c).siteDownSince =
      (handle timeOnly t r isDown c).siteDownSince ∧
    (lockedSection timeOnly s r isDown c).statusLog =
      (handle timeOnly t r isDown c).statusLog ∧
    (lockedSection timeOnly s r isDown c).failedRequests = s.failedRequests ∧
    (lockedSection timeOnly s r isDown c).successRequests = s.successRequests ∧
    (lockedSection timeOnly s r isDown c).totalRequests = s.totalRequests := by
  cases r with
  | err =>
    cases isDown
    all_goals cases hft : t.siteDown
    all_goals simp [lockedSection, handle, flipDownError, hd, hu, hf, hs, hl, hft]
  | resp code =>
    by_cases hc : code ≥ 500 ∨ code = 429
    all_goals cases isDown
    all_goals cases hft : t.siteDown
    all_goals simp [lockedSection, handle, flipDownStatus, flipUp, hd, hu, hf, hs, hl, hft, hc]

theorem countSection_fields (s : domainStats) (r : Result) :
    (countSection s r).domain = s.domain ∧ (countSection s r).targetURL = s.targetURL ∧
    (countSection s r).siteDown = s.siteDown ∧
    (countSection s r).siteDownSince = s.siteDownSince ∧
    (countSection s r).statusLog = s.statusLog ∧
    (countSection s r).totalRequests = s.totalRequests ∧
    (countSection s r).failedRequests =
      (if specClassify r = Classification.failure then AddInt64 s.failedRequests 1
       else s.failedRequests) ∧
    (countSection s r).successRequests =
      (if specClassify r = Classification.success then AddInt64 s.successRequests 1
       else s.successRequests) := by
  cases r with
  | err => simp [countSection, specClassify]
  | resp code =>
    by_cases hc : code ≥ 500 ∨ code = 429
    all_goals simp [countSection, specClassify, hc]

theorem owed_set (pcs : List Pc) (w : Nat) (pc x : Pc) (hw : pcs.get? w = some pc) :
    owedFailed (pcs.set w x) = owedFailed pcs - owedFailed [pc] + owedFailed [x] ∧
    owedSuccess (pcs.set w x) = owedSuccess pcs - owedSuccess [pc] + owedSuccess [x] ∧
    owedTotal (pcs.set w x) = owedTotal pcs - owedTotal [pc] + owedTotal [x] := by
  simp only [owedFailed, owedSuccess, owedTotal, sum_map_set _ _ _ _ _ hw, List.map_cons,
    List.map_nil, List.sum_cons, List.sum_nil]
  omega

theorem owed_singleton_idle :
    owedFailed [Pc.idle] = 0 ∧ owedSuccess [Pc.idle] = 0 ∧ owedTotal [Pc.idle] = 0 := by
  decide

theorem owed_singleton_snapshot (r : Result) :
    owedFailed [Pc.snapshot r] = 0 ∧ owedSuccess [Pc.snapshot r] = 0 ∧
    owedTotal [Pc.snapshot r] = 0 := by
  simp [owedFailed, owedSuccess, owedTotal]

theorem owed_singleton_branch (r : Result) (isDown : Bool) :
    owedFailed [Pc.branch r isDown] = 0 ∧ owedSuccess [Pc.branch r isDown] = 0 ∧
    owedTotal [Pc.branch r isDown] = 0 := by
  simp [owedFailed, owedSuccess, owedTotal]

theorem owed_singleton_count (r : Result) :
    owedFailed [Pc.count r] =
      (if specClassify r = Classification.failure then 1 else 0) ∧
    owedSuccess [Pc.count r] =
      (if specClassify r = Classification.success then 1 else 0) ∧
    owedTotal [Pc.count r] = 1 := by
  simp [owedFailed, owedSuccess, owedTotal]

theorem owed_singleton_total :
    owedFailed [Pc.total] = 0 ∧ owedSuccess [Pc.total] = 0 ∧ owedTotal [Pc.total] = 1 := by
  decide

theorem Lags_act (timeOnly : Int → String) (s₀ : domainStats) (cfg : Config)
    (steps : List Step) (w : Nat) (r : Result) (c : Clock)
    (h : Lags cfg (run timeOnly s₀ steps)) :
    ∃ steps', Lags (act timeOnly cfg w r c) (run timeOnly s₀ steps') ∧
      (steps' = steps ∨ ∃ r' isDown, cfg.pcs.get? w = some (Pc.branch r' isDown) ∧
        steps' = steps ++ [⟨r', isDown, c⟩]) := by
  have hF := h.failed
  have hS := h.success
  have hT := h.total
  have lF := h.owedFailedLe
  have lS := h.owedSuccessLe
  have lT := h.owedTotalLe
  unfold act
  cases hw : cfg.pcs.get? w with
  | none => exact ⟨steps, h, Or.inl rfl⟩
  | some pc =>
    cases pc with
    | idle =>
      obtain ⟨oF, oS, oT⟩ := owed_set cfg.pcs w _ (Pc.snapshot r) hw
      obtain ⟨i1, i2, i3⟩ := owed_singleton_idle
      obtain ⟨j1, j2, j3⟩ := owed_singleton_snapshot r
      rw [i1, j1] at oF
      rw [i2, j2] at oS
      rw [i3, j3] at oT
      refine ⟨steps, ⟨h.domain, h.targetURL, h.siteDown, h.siteDownSince, h.statusLog,
        ?_, ?_, ?_, ?_, ?_, ?_⟩, Or.inl rfl⟩
      · show cfg.stats.failedRequests = _
        rw [oF, hF]; congr 1; omega
      · show cfg.stats.successRequests = _
        rw [oS, hS]; congr 1; omega
      · show cfg.stats.totalRequests = _
        rw [oT, hT]; congr 1; omega
      · show owedFailed _ ≤ _
        rw [oF]; omega
      · show owedSuccess _ ≤ _
        rw [oS]; omega
      · show owedTotal _ ≤ _
        rw [oT]; omega
    | snapshot r' =>
      obtain ⟨oF, oS, oT⟩ := owed_set cfg.pcs w _ (Pc.branch r' cfg.stats.siteDown) hw
      obtain ⟨i1, i2, i3⟩ := owed_singleton_snapshot r'
      obtain ⟨j1, j2, j3⟩ := owed_singleton_branch r' cfg.stats.siteDown
      rw [i1, j1] at oF
      rw [i2, j2] at oS
      rw [i3, j3] at oT
      refine ⟨steps, ⟨h.domain, h.targetURL, h.siteDown, h.siteDownSince, h.statusLog,
        ?_, ?_, ?_, ?_, ?_, ?_⟩, Or.inl rfl⟩
      · show cfg.stats.failedRequests = _
        rw [oF, hF]; congr 1; omega
      · show cfg.stats.successRequests = _
        rw [oS, hS]; congr 1; omega
      · show cfg.stats.totalRequests = _
        rw [oT, hT]; congr 1; omega
      · show owedFailed _ ≤ _
        rw [oF]; omega
      · show owedSuccess _ ≤ _
        rw [oS]; omega
      · show owedTotal _ ≤ _
        rw [oT]; omega
    | branch r' isDown =>
      obtain ⟨oF, oS, oT⟩ := owed_set cfg.pcs w _ (Pc.count r') hw
      obtain ⟨i1, i2, i3⟩ := owed_singleton_branch r' isDown
      obtain ⟨j1, j2, j3⟩ := owed_singleton_count r'
      rw [i1, j1] at oF
      rw [i2, j2] at oS
      rw [i3, j3] at oT
      refine ⟨steps ++ [⟨r', isDown, c⟩], ?_, Or.inr ⟨r', isDown, rfl, rfl⟩⟩
      rw [run_append, run_cons, run_nil]
      obtain ⟨k1, k2, k3, k4, k5, k6, k7, k8⟩ := lockedSection_lags timeOnly cfg.stats
        (run timeOnly s₀ steps) r' isDown c h.domain h.targetURL h.siteDown h.siteDownSince
        h.statusLog
      obtain ⟨c1, c2, c3⟩ := handle_counters timeOnly (run timeOnly s₀ steps) r' isDown c
      refine ⟨k1, k2, k3, k4, k5, ?_, ?_, ?_, ?_, ?_, ?_⟩
      · show (lockedSection timeOnly cfg.stats r' isDown c).failedRequests = _
        rw [k6, oF, c3, hF]; congr 1; omega
      · show (lockedSection timeOnly cfg.stats r' isDown c).successRequests = _
        rw [k7, oS, c2, hS]; congr 1; omega
      · show (lockedSection timeOnly cfg.stats r' isDown c).totalRequests = _
        rw [k8, oT, c1, hT]; congr 1; omega
      · show owedFailed _ ≤ _
        rw [oF, c3]; omega
      · show owedSuccess _ ≤ _
        rw [oS, c2]; omega
      · show owedTotal _ ≤ _
        rw [oT, c1]; omega
    | count r' =>
      obtain ⟨oF, oS, oT⟩ := owed_set cfg.pcs w _ Pc.total hw
      obtain ⟨i1, i2, i3⟩ := owed_singleton_count r'
      obtain ⟨j1, j2, j3⟩ := owed_singleton_total
      rw [i1, j1] at oF
      rw [i2, j2] at oS
      rw [i3, j3] at oT
      obtain ⟨k1, k2, k3, k4, k5, k6, k7, k8⟩ := countSection_fields cfg.stats r'
      refine ⟨steps, ⟨k1.trans h.domain, k2.trans h.targetURL, k3.trans h.siteDown,
        k4.trans h.siteDownSince, k5.trans h.statusLog, ?_, ?_, ?_, ?_, ?_, ?_⟩, Or.inl rfl⟩
      · show (countSection cfg.stats r').failedRequests = _
        rw [k7, oF, hF]
        cases specClassify r'
        · simp
        · simp only [if_true, AddInt64, wrapInt64_add_wrap]; congr 1; omega
      · show (countSection cfg.stats r').successRequests = _
        rw [k8, oS, hS]
        cases specClassify r'
        · simp only [if_true, AddInt64, wrapInt64_add_wrap]; congr 1; omega
        · simp
      · show (countSection cfg.stats r').totalRequests = _
        rw [k6, oT, hT]; congr 1; omega
      · show owedFailed _ ≤ _
        rw [oF]
        cases specClassify r' <;> simp <;> omega
      · show owedSuccess _ ≤ _
        rw [oS]
        cases specClassify r' <;> simp <;> omega
      · show owedTotal _ ≤ _
        rw [oT]; omega
    | total =>
      obtain ⟨oF, oS, oT⟩ := owed_set cfg.pcs w _ Pc.idle hw
      obtain ⟨i1, i2, i3⟩ := owed_singleton_total
      obtain ⟨j1, j2, j3⟩ := owed_singleton_idle
      rw [i1, j1] at oF
      rw [i2, j2] at oS
      rw [i3, j3] at oT
      refine ⟨steps, ⟨h.domain, h.targetURL, h.siteDown, h.siteDownSince, h.statusLog,
        ?_, ?_, ?_, ?_, ?_, ?_⟩, Or.inl rfl⟩
      · show cfg.stats.failedRequests = _
        rw [oF, hF]; congr 1; omega
      · show cfg.stats.successRequests = _
        rw [oS, hS]; congr 1; omega
      · show AddInt64 cfg.stats.totalRequests 1 = _
        rw [oT, hT, AddInt64, wrapInt64_add_wrap]; congr 1; omega
      · show owedFailed _ ≤ _
        rw [oF]; omega
      · show owedSuccess _ ≤ _
        rw [oS]; omega
      · show owedTotal _ ≤ _
        rw [oT]; omega

theorem act_result (timeOnly : Int → String) (cfg : Config) (w : Nat) (r : Result)
    (c : Clock) :
    ∀ pc' ∈ (act timeOnly cfg w r c).pcs, ∀ r', pc'.result = some r' →
      r' = r ∨ ∃ pc ∈ cfg.pcs, pc.result = some r' := by
  intro pc' hpc' r' hr'
  unfold act at hpc'
  cases hw : cfg.pcs.get? w with
  | none =>
    rw [hw] at hpc'
    exact Or.inr ⟨pc', hpc', hr'⟩
  | some pc =>
    have hmem : pc ∈ cfg.pcs := List.get?_mem hw
    rw [hw] at hpc'
    cases pc with
    | idle =>
      rcases List.mem_or_eq_of_mem_set hpc' with h | h
      · exact Or.inr ⟨pc', h, hr'⟩
      · subst h; simp [Pc.result] at hr'; exact Or.inl hr'.symm
    | snapshot r₁ =>
      rcases List.mem_or_eq_of_mem_set hpc' with h | h
      · exact Or.inr ⟨pc', h, hr'⟩
      · subst h; simp [Pc.result] at hr'
        exact Or.inr ⟨_, hmem, by rw [← hr']; rfl⟩
    | branch r₁ isDown =>
      rcases List.mem_or_eq_of_mem_set hpc' with h | h
      · exact Or.inr ⟨pc', h, hr'⟩
      · subst h; simp [Pc.result] at hr'
        exact Or.inr ⟨_, hmem, by rw [← hr']; rfl⟩
    | count r₁ =>
      rcases List.mem_or_eq_of_mem_set hpc' with h | h
      · exact Or.inr ⟨pc', h, hr'⟩
      · subst h; simp [Pc.result] at hr'
    | total =>
      rcases List.mem_or_eq_of_mem_set hpc' with h | h
      · exact Or.inr ⟨pc', h, hr'⟩
      · subst h; simp [Pc.result] at hr'

theorem exec_snoc (timeOnly : Int → String) (cfg : Config)
    (schedule : List (Nat × Result × Clock)) (a : Nat × Result × Clock) :
    exec timeOnly cfg (schedule ++ [a]) =
      act timeOnly (exec timeOnly cfg schedule) a.1 a.2.1 a.2.2 := by
  simp [exec, List.foldl_append]

theorem owed_of_idle (pcs : List Pc) (h : ∀ pc ∈ pcs, pc = Pc.idle) :
    owedFailed pcs = 0 ∧ owedSuccess pcs = 0 ∧ owedTotal pcs = 0 := by
  induction pcs with
  | nil => simp [owedFailed, owedSuccess, owedTotal]
  | cons a l ih =>
    have ha : a = Pc.idle := h a (List.mem_cons_self _ _)
    obtain ⟨h1, h2, h3⟩ := ih (fun pc hpc => h pc (List.mem_cons_of_mem _ hpc))
    subst ha
    simp only [owedFailed, owedSuccess, owedTotal, List.map_cons, List.sum_cons] at h1 h2 h3 ⊢
    omega

theorem owed_nonneg (pcs : List Pc) :
    0 ≤ owedFailed pcs ∧ 0 ≤ owedSuccess pcs ∧ 0 ≤ owedTotal pcs := by
  induction pcs with
  | nil => simp [owedFailed, owedSuccess, owedTotal]
  | cons a l ih =>
    simp only [owedFailed, owedSuccess, owedTotal, List.map_cons, List.sum_cons] at ih ⊢
    cases a with
    | idle => dsimp only; omega
    | snapshot r => dsimp only; omega
    | branch r isDown => dsimp only; omega
    | count r =>
      dsimp only
      cases hr : specClassify r
      · rw [if_neg (by decide), if_pos rfl]; omega
      · rw [if_pos rfl, if_neg (by decide)]; omega
    | total => dsimp only; omega

theorem owedTotal_ge (pcs : List Pc) : owedFailed pcs + owedSuccess pcs ≤ owedTotal pcs := by
  induction pcs with
  | nil => simp [owedFailed, owedSuccess, owedTotal]
  | cons a l ih =>
    simp only [owedFailed, owedSuccess, owedTotal, List.map_cons, List.sum_cons] at ih ⊢
    cases a with
    | idle => dsimp only; omega
    | snapshot r => dsimp only; omega
    | branch r isDown => dsimp only; omega
    | count r =>
      dsimp only
      cases hr : specClassify r
      · rw [if_neg (by decide), if_pos rfl]; omega
      · rw [if_pos rfl, if_neg (by decide)]; omega
    | total => dsimp only; omega

/-- Every interleaving is covered by `run`.  For any number of workers that start
outside the loop body, on a record whose counters are in range, and any schedule of
their atomic actions there is a list of steps, each with a result returned in the
schedule and no more of them than actions, such that the shared record agrees with `run`
on these steps in flag, time stamp and log, and has the counters of `run` less what is
still owed, as `int64`; when every worker is outside the loop body again the shared
record is exactly the state `run64` reaches. -/
theorem exec_covered (timeOnly : Int → String) (s₀ : domainStats) (workers : Nat)
    (schedule : List (Nat × Result × Clock)) (hrange : CountersInRange s₀) :
    ∃ steps : List Step,
      Lags (exec timeOnly ⟨s₀, List.replicate workers Pc.idle⟩ schedule)
        (run timeOnly s₀ steps) ∧
      (∀ st ∈ steps, ∃ a ∈ schedule, a.2.1 = st.result) ∧
      (∀ pc ∈ (exec timeOnly ⟨s₀, List.replicate workers Pc.idle⟩ schedule).pcs,
        ∀ r, pc.result = some r → ∃ a ∈ schedule, a.2.1 = r) ∧
      steps.length ≤ schedule.length ∧
      ((∀ pc ∈ (exec timeOnly ⟨s₀, List.replicate workers Pc.idle⟩ schedule).pcs,
          pc = Pc.idle) →
        (exec timeOnly ⟨s₀, List.replicate workers Pc.idle⟩ schedule).stats =
          run64 timeOnly s₀ steps) := by
  obtain ⟨⟨r1, r2⟩, ⟨r3, r4⟩, ⟨r5, r6⟩⟩ := hrange
  have hw0 : Wraps s₀ s₀ :=
    ⟨rfl, rfl, rfl, rfl, rfl, (wrapInt64_of_range _ (by omega) r2).symm,
      (wrapInt64_of_range _ (by omega) r4).symm, (wrapInt64_of_range _ (by omega) r6).symm⟩
  have final : ∀ (cfg : Config) (steps : List Step), Lags cfg (run timeOnly s₀ steps) →
      (∀ pc ∈ cfg.pcs, pc = Pc.idle) → cfg.stats = run64 timeOnly s₀ steps := by
    intro cfg steps h hidle
    obtain ⟨o1, o2, o3⟩ := owed_of_idle cfg.pcs hidle
    have hw := Wraps_run timeOnly steps s₀ s₀ hw0
    have h6 := h.failed
    have h7 := h.success
    have h8 := h.total
    rw [o1, Int.sub_zero, ← hw.failed] at h6
    rw [o2, Int.sub_zero, ← hw.success] at h7
    rw [o3, Int.sub_zero, ← hw.total] at h8
    have h1 := h.domain.trans hw.domain.symm
    have h2 := h.targetURL.trans hw.targetURL.symm
    have h3 := h.siteDown.trans hw.siteDown.symm
    have h4 := h.siteDownSince.trans hw.siteDownSince.symm
    have h5 := h.statusLog.trans hw.statusLog.symm
    cases hs : cfg.stats
    cases ht : run64 timeOnly s₀ steps
    rw [hs, ht] at h1 h2 h3 h4 h5 h6 h7 h8
    simp only at h1 h2 h3 h4 h5 h6 h7 h8
    simp [h1, h2, h3, h4, h5, h6, h7, h8]
  suffices key : ∃ steps : List Step,
      Lags (exec timeOnly ⟨s₀, List.replicate workers Pc.idle⟩ schedule)
        (run timeOnly s₀ steps) ∧
      (∀ st ∈ steps, ∃ a ∈ schedule, a.2.1 = st.result) ∧
      (∀ pc ∈ (exec timeOnly ⟨s₀, List.replicate workers Pc.idle⟩ schedule).pcs,
        ∀ r, pc.result = some r → ∃ a ∈ schedule, a.2.1 = r) ∧
      steps.length ≤ schedule.length by
    obtain ⟨steps, h1, h2, h3, h4⟩ := key
    exact ⟨steps, h1, h2, h3, h4, final _ steps h1⟩
  induction schedule using List.reverseRecOn with
  | nil =>
    refine ⟨[], ?_, by simp, ?_, by simp⟩
    · obtain ⟨o1, o2, o3⟩ := owed_of_idle (List.replicate workers Pc.idle)
        (fun pc hpc => List.eq_of_mem_replicate hpc)
      refine ⟨rfl, rfl, rfl, rfl, rfl, ?_, ?_, ?_, ?_, ?_, ?_⟩
      · show s₀.failedRequests =
          wrapInt64 (s₀.failedRequests - owedFailed (List.replicate workers Pc.idle))
        rw [o1, Int.sub_zero]; exact hw0.failed
      · show s₀.successRequests =
          wrapInt64 (s₀.successRequests - owedSuccess (List.replicate workers Pc.idle))
        rw [o2, Int.sub_zero]; exact hw0.success
      · show s₀.totalRequests =
          wrapInt64 (s₀.totalRequests - owedTotal (List.replicate workers Pc.idle))
        rw [o3, Int.sub_zero]; exact hw0.total
      · show owedFailed (List.replicate workers Pc.idle) ≤ s₀.failedRequests
        rw [o1]; exact r5
      · show owedSuccess (List.replicate workers Pc.idle) ≤ s₀.successRequests
        rw [o2]; exact r3
      · show owedTotal (List.replicate workers Pc.idle) ≤ s₀.totalRequests
        rw [o3]; exact r1
    · intro pc hpc r hr
      have : pc = Pc.idle := List.eq_of_mem_replicate hpc
      subst this
      simp [Pc.result] at hr
  | append_singleton schedule a ih =>
    obtain ⟨steps, hl, hsteps, hpcs, hlen⟩ := ih
    rw [exec_snoc]
    obtain ⟨steps', hl', hcase⟩ := Lags_act timeOnly s₀ _ steps a.1 a.2.1 a.2.2 hl
    refine ⟨steps', hl', ?_, ?_, ?_⟩
    · intro st hst
      rcases hcase with h | ⟨r', isDown, hget, h⟩
      · subst h
        obtain ⟨b, hb, hbr⟩ := hsteps st hst
        exact ⟨b, List.mem_append_left _ hb, hbr⟩
      · subst h
        rcases List.mem_append.mp hst with hst | hst
        · obtain ⟨b, hb, hbr⟩ := hsteps st hst
          exact ⟨b, List.mem_append_left _ hb, hbr⟩
        · rw [List.mem_singleton] at hst
          subst hst
          obtain ⟨b, hb, hbr⟩ := hpcs _ (List.get?_mem hget) r' rfl
          exact ⟨b, List.mem_append_left _ hb, hbr⟩
    · intro pc hpc r hr
      rcases act_result timeOnly _ a.1 a.2.1 a.2.2 pc hpc r hr with h | ⟨pc₀, hpc₀, hr₀⟩
      · exact ⟨a, by simp, h.symm⟩
      · obtain ⟨b, hb, hbr⟩ := hpcs pc₀ hpc₀ r hr₀
        exact ⟨b, List.mem_append_left _ hb, hbr⟩
    · rcases hcase with h | ⟨_, _, _, h⟩
      · subst h; simp; omega
      · subst h; simp; omega

theorem CountersInRange_of_zero (s : domainStats) (hTotal : s.totalRequests = 0)
    (hSuccess : s.successRequests = 0) (hFailed : s.failedRequests = 0) :
    CountersInRange s :=
  ⟨by rw [hTotal]; decide, by rw [hSuccess]; decide, by rw [hFailed]; decide⟩

/-- In every interleaving from the initial state the transition log has the shape of C1
at every moment: DOWN and UP entries only, a DOWN entry first, no two neighbours of the
same kind. -/
theorem exec_log_shape (timeOnly : Int → String) (domain targetURL : String)
    (workers : Nat) (schedule : List (Nat × Result × Clock)) :
    LogInv (exec timeOnly ⟨newDomainStats domain targetURL, List.replicate workers Pc.idle⟩
      schedule).stats := by
  obtain ⟨steps, hl, _, _, _, _⟩ :=
    exec_covered timeOnly (newDomainStats domain targetURL) workers schedule
      (CountersInRange_of_zero _ rfl rfl rfl)
  have h := LogInv_run timeOnly steps _ (LogInv_new domain targetURL)
  exact ⟨by rw [hl.statusLog]; exact h.kinds, by rw [hl.statusLog]; exact h.head,
    by rw [hl.statusLog]; exact h.chain, by rw [hl.statusLog, hl.siteDown]; exact h.last,
    by rw [hl.statusLog, hl.siteDown]; exact h.empty⟩

/-- In every interleaving of fewer than `1<<63` actions that starts with counters 0,
`total ≤ success + failure` at every moment (the total is added last), and
`total = success + failure` whenever no worker is inside the loop body. -/
theorem exec_balance (timeOnly : Int → String) (s₀ : domainStats) (workers : Nat)
    (schedule : List (Nat × Result × Clock))
    (hTotal : s₀.totalRequests = 0) (hSuccess : s₀.successRequests = 0)
    (hFailed : s₀.failedRequests = 0) (hlen : schedule.length < 9223372036854775808) :
    (exec timeOnly ⟨s₀, List.replicate workers Pc.idle⟩ schedule).stats.totalRequests ≤
      (exec timeOnly ⟨s₀, List.replicate workers Pc.idle⟩ schedule).stats.successRequests +
      (exec timeOnly ⟨s₀, List.replicate workers Pc.idle⟩ schedule).stats.failedRequests ∧
    ((∀ pc ∈ (exec timeOnly ⟨s₀, List.replicate workers Pc.idle⟩ schedule).pcs,
        pc = Pc.idle) →
      (exec timeOnly ⟨s₀, List.replicate workers Pc.idle⟩ schedule).stats.totalRequests =
        (exec timeOnly ⟨s₀, List.replicate workers Pc.idle⟩ schedule).stats.successRequests +
        (exec timeOnly ⟨s₀, List.replicate workers Pc.idle⟩ schedule).stats.failedRequests) := by
  obtain ⟨steps, hl, _, _, hsl, _⟩ := exec_covered timeOnly s₀ workers schedule
    (CountersInRange_of_zero s₀ hTotal hSuccess hFailed)
  obtain ⟨h1, h2, h3⟩ := run_counters timeOnly steps s₀
  rw [hTotal, zero_add] at h1
  rw [hSuccess, zero_add] at h2
  rw [hFailed, zero_add] at h3
  have hsplit := filter_classes_length steps
  have k1 := hl.total
  have k2 := hl.success
  have k3 := hl.failed
  have l1 := hl.owedTotalLe
  have l2 := hl.owedSuccessLe
  have l3 := hl.owedFailedLe
  have hge := owedTotal_ge (exec timeOnly ⟨s₀, List.replicate workers Pc.idle⟩ schedule).pcs
  obtain ⟨n1, n2, n3⟩ :=
    owed_nonneg (exec timeOnly ⟨s₀, List.replicate workers Pc.idle⟩ schedule).pcs
  rw [h1] at k1 l1
  rw [h2] at k2 l2
  rw [h3] at k3 l3
  have e1 := wrapInt64_of_range ((steps.length : Int) -
    owedTotal (exec timeOnly ⟨s₀, List.replicate workers Pc.idle⟩ schedule).pcs)
    (by omega) (by omega)
  have e2 := wrapInt64_of_range
    (((steps.filter (fun st => specClassify st.result = Classification.success)).length :
      Int) -
    owedSuccess (exec timeOnly ⟨s₀, List.replicate workers Pc.idle⟩ schedule).pcs)
    (by omega) (by omega)
  have e3 := wrapInt64_of_range
    (((steps.filter (fun st => specClassify st.result = Classification.failure)).length :
      Int) -
    owedFailed (exec timeOnly ⟨s₀, List.replicate workers Pc.idle⟩ schedule).pcs)
    (by omega) (by omega)
  rw [e1] at k1
  rw [e2] at k2
  rw [e3] at k3
  constructor
  · omega
  · intro hidle
    obtain ⟨o1, o2, o3⟩ := owed_of_idle _ hidle
    omega

/-- In every interleaving from the initial state in which every request succeeds, the
flag is UP and the log is empty at every moment, and whenever no worker is inside the
loop body `failure = 0` and `total = success`. -/
theorem exec_successes (timeOnly : Int → String) (domain targetURL : String)
    (workers : Nat) (schedule : List (Nat × Result × Clock))
    (hs : ∀ a ∈ schedule, specClassify a.2.1 = Classification.success) :
    (exec timeOnly ⟨newDomainStats domain targetURL, List.replicate workers Pc.idle⟩
      schedule).stats.siteDown = false ∧
    (exec timeOnly ⟨newDomainStats domain targetURL, List.replicate workers Pc.idle⟩
      schedule).stats.statusLog = [] ∧
    ((∀ pc ∈ (exec timeOnly ⟨newDomainStats domain targetURL,
          List.replicate workers Pc.idle⟩ schedule).pcs, pc = Pc.idle) →
      (exec timeOnly ⟨newDomainStats domain targetURL, List.replicate workers Pc.idle⟩
        schedule).stats.failedRequests = 0 ∧
      (exec timeOnly ⟨newDomainStats domain targetURL, List.replicate workers Pc.idle⟩
        schedule).stats.totalRequests =
      (exec timeOnly ⟨newDomainStats domain targetURL, List.replicate workers Pc.idle⟩
        schedule).stats.successRequests) := by
  obtain ⟨steps, hl, hsteps, _, _, hfinal⟩ :=
    exec_covered timeOnly (newDomainStats domain targetURL) workers schedule
      (CountersInRange_of_zero _ rfl rfl rfl)
  have hall : ∀ st ∈ steps, specClassify st.result = Classification.success := by
    intro st hst
    obtain ⟨a, ha, har⟩ := hsteps st hst
    rw [← har]
    exact hs a ha
  obtain ⟨k1, k2⟩ := run_successes timeOnly steps (newDomainStats domain targetURL) rfl hall
  obtain ⟨h1, h2, h3⟩ :=
    run64_counters timeOnly (newDomainStats domain targetURL) steps rfl rfl rfl
  have f1 : steps.filter (fun st => specClassify st.result = Classification.success) =
      steps := by
    rw [List.filter_eq_self]
    intro st hst
    simp [hall st hst]
  have f2 : steps.filter (fun st => specClassify st.result = Classification.failure) =
      [] := by
    rw [List.filter_eq_nil_iff]
    intro st hst
    simp [hall st hst]
  rw [f1] at h2
  rw [f2] at h3
  refine ⟨hl.siteDown.trans k1, hl.statusLog.trans k2, ?_⟩
  intro hidle
  rw [hfinal hidle, h1, h2, h3]
  exact ⟨by decide, rfl⟩

/-! ## Domain names -/

theorem dropWhile_append_of_all (p : Char → Bool) (w l : List Char)
    (hw : ∀ c ∈ w, p c = true) : (w ++ l).dropWhile p = l.dropWhile p := by
  induction w with
  | nil => rfl
  | cons a w ih =>
    have ha : p a = true := hw a (List.mem_cons_self _ _)
    rw [List.cons_append, List.dropWhile_cons_of_pos ha]
    exact ih (fun c hc => hw c (List.mem_cons_of_mem _ hc))

theorem rdropWhile_append_of_all (p : Char → Bool) (l w : List Char)
    (hw : ∀ c ∈ w, p c = true) : (l ++ w).rdropWhile p = l.rdropWhile p := by
  induction w using List.reverseRecOn with
  | nil => simp
  | append_singleton w a ih =>
    have ha : p a = true := hw a (by simp)
    rw [← List.append_assoc, List.rdropWhile_concat_pos _ _ _ ha]
    exact ih (fun c hc => hw c (by simp [hc]))

theorem trim_sandwich (w₁ m w₂ : List Char) (hw₁ : ∀ c ∈ w₁, IsSpace c = true)
    (hw₂ : ∀ c ∈ w₂, IsSpace c = true)
    (hhead : ∀ c, m.head? = some c → IsSpace c = false)
    (hlast : ∀ c, m.getLast? = some c → IsSpace c = false) :
    ((w₁ ++ m ++ w₂).dropWhile IsSpace).rdropWhile IsSpace = m := by
  rw [List.append_assoc, dropWhile_append_of_all IsSpace w₁ _ hw₁]
  cases m with
  | nil =>
    rw [List.nil_append]
    have h := dropWhile_append_of_all IsSpace w₂ [] hw₂
    rw [List.append_nil] at h
    rw [h]
    rfl
  | cons a m =>
    have ha : ¬ (IsSpace a = true) := by
      rw [hhead a rfl]; exact Bool.false_ne_true
    rw [List.cons_append, List.dropWhile_cons_of_neg ha, ← List.cons_append,
      rdropWhile_append_of_all IsSpace _ w₂ hw₂, List.rdropWhile_eq_self_iff]
    intro hl
    rw [hlast _ (List.getLast?_eq_getLast _ hl)]
    exact Bool.false_ne_true

theorem TrimPrefix_append (x pfx : List Char) :
    TrimPrefix (String.mk (pfx ++ x)) (String.mk pfx) = String.mk x := by
  unfold TrimPrefix HasPrefix
  have h : pfx.isPrefixOf (pfx ++ x) = true :=
    List.isPrefixOf_iff_prefix.mpr (List.prefix_append _ _)
  simp only [h, if_true, List.drop_left]

theorem TrimPrefix_of_not (x pfx : List Char) (h : ¬ pfx <+: x) :
    TrimPrefix (String.mk x) (String.mk pfx) = String.mk x := by
  unfold TrimPrefix HasPrefix
  have h' : pfx.isPrefixOf x = false := by
    rw [← Bool.not_eq_true]
    exact fun hp => h (List.isPrefixOf_iff_prefix.mp hp)
  simp only [h', Bool.false_eq_true, if_false]

theorem TrimSuffix_append (x suffix : List Char) :
    TrimSuffix (String.mk (x ++ suffix)) (String.mk suffix) = String.mk x := by
  unfold TrimSuffix HasSuffix
  have h : suffix.isSuffixOf (x ++ suffix) = true :=
    List.isSuffixOf_iff_suffix.mpr (List.suffix_append _ _)
  simp only [h, if_true, List.length_append, Nat.add_sub_cancel, List.take_left']

theorem TrimSuffix_of_not (x suffix : List Char) (h : ¬ suffix <:+ x) :
    TrimSuffix (String.mk x) (String.mk suffix) = String.mk x := by
  unfold TrimSuffix HasSuffix
  have h' : suffix.isSuffixOf x = false := by
    rw [← Bool.not_eq_true]
    exact fun hp => h (List.isSuffixOf_iff_suffix.mp hp)
  simp only [h', Bool.false_eq_true, if_false]

theorem scheme_not_prefix_append (pfx h t : List Char)
    (hpfx : pfx ∈ [['h', 't', 't', 'p', ':', '/', '/'], ['h', 't', 't', 'p', 's', ':', '/', '/']])
    (ht : t ∈ [[], ['/'], ['.'], ['.', '/']])
    (hnp : ¬ pfx <+: h) (hns : ¬ ['/'] <:+ h) : ¬ pfx <+: h ++ t := by
  intro hpre
  have hh : h <+: h ++ t := List.prefix_append _ _
  rcases Nat.le_total pfx.length h.length with hle | hle
  · exact hnp (List.prefix_of_prefix_length_le hpre hh hle)
  · have hin : h ∈ pfx.inits :=
      (List.mem_inits _ _).mpr (List.prefix_of_prefix_length_le hh hpre hle)
    have fin : ∀ q ∈ [['h', 't', 't', 'p', ':', '/', '/'],
          ['h', 't', 't', 'p', 's', ':', '/', '/']],
        ∀ h' ∈ q.inits, ∀ t' ∈ [[], ['/'], ['.'], ['.', '/']],
        q.isPrefixOf (h' ++ t') = true →
          (q.isPrefixOf h' = true ∨ ['/'].isSuffixOf h' = true) := by
      decide
    rcases fin pfx hpfx h hin t ht (List.isPrefixOf_iff_prefix.mpr hpre) with h1 | h1
    · exact hnp (List.isPrefixOf_iff_prefix.mp h1)
    · exact hns (List.isSuffixOf_iff_suffix.mp h1)

theorem scheme_trailer_ends (s h t : List Char)
    (hs : s ∈ [[], ['h', 't', 't', 'p', ':', '/', '/'], ['h', 't', 't', 'p', 's', ':', '/', '/']])
    (ht : t ∈ [[], ['/'], ['.'], ['.', '/']])
    (hlead : ∀ c, h.head? = some c → IsSpace c = false)
    (htrail : ∀ c, h.getLast? = some c → IsSpace c = false) :
    (∀ c, (s ++ h ++ t).head? = some c → IsSpace c = false) ∧
    (∀ c, (s ++ h ++ t).getLast? = some c → IsSpace c = false) := by
  have hslash : IsSpace '/' = false := by decide
  have hdot : IsSpace '.' = false := by decide
  have hh : IsSpace 'h' = false := by decide
  constructor
  · intro c hc
    rw [List.head?_append, List.head?_append] at hc
    simp only [List.mem_cons, List.mem_singleton, List.not_mem_nil, or_false] at hs ht
    rcases hs with rfl | rfl | rfl
    · cases hhd : h.head? with
      | some a =>
        rw [hhd] at hc
        simp at hc
        rw [← hc]; exact hlead a hhd
      | none =>
        rw [hhd] at hc
        rcases ht with rfl | rfl | rfl | rfl
        · simp at hc
        · simp at hc; rw [← hc]; exact hslash
        · simp at hc; rw [← hc]; exact hdot
        · simp at hc; rw [← hc]; exact hdot
    · simp at hc; rw [← hc]; exact hh
    · simp at hc; rw [← hc]; exact hh
  · intro c hc
    rw [List.getLast?_append, List.getLast?_append] at hc
    simp only [List.mem_cons, List.mem_singleton, List.not_mem_nil, or_false] at hs ht
    rcases ht with rfl | rfl | rfl | rfl
    · cases hhd : h.getLast? with
      | some a =>
        rw [hhd] at hc
        simp at hc
        rw [← hc]; exact htrail a hhd
      | none =>
        rw [hhd] at hc
        rcases hs with rfl | rfl | rfl
        · simp at hc
        · simp at hc; rw [← hc]; exact hslash
        · simp at hc; rw [← hc]; exact hslash
    · simp at hc; rw [← hc]; exact hslash
    · simp at hc; rw [← hc]; exact hdot
    · simp at hc; rw [← hc]; exact hslash

theorem normalizeDomain_core (w₁ s h t w₂ : List Char)
    (hs : s ∈ [[], ['h', 't', 't', 'p', ':', '/', '/'], ['h', 't', 't', 'p', 's', ':', '/', '/']])
    (ht : t ∈ [[], ['/'], ['.'], ['.', '/']])
    (hw₁ : ∀ c ∈ w₁, IsSpace c = true) (hw₂ : ∀ c ∈ w₂, IsSpace c = true)
    (hlead : ∀ c, h.head? = some c → IsSpace c = false)
    (htrail : ∀ c, h.getLast? = some c → IsSpace c = false)
    (hhttp : ¬ ['h', 't', 't', 'p', ':', '/', '/'] <+: h)
    (hhttps : ¬ ['h', 't', 't', 'p', 's', ':', '/', '/'] <+: h)
    (hslash : ¬ ['/'] <:+ h) (hdot : ¬ ['.'] <:+ h) :
    normalizeDomain (String.mk (w₁ ++ s ++ h ++ t ++ w₂)) = String.mk h := by
  have e7 : ("http://" : String) = String.mk ['h', 't', 't', 'p', ':', '/', '/'] := by decide
  have e8 : ("https://" : String) = String.mk ['h', 't', 't', 'p', 's', ':', '/', '/'] := by
    decide
  have e1 : ("/" : String) = String.mk ['/'] := by decide
  have e2 : ("." : String) = String.mk ['.'] := by decide
  obtain ⟨hhead, hlast⟩ := scheme_trailer_ends s h t hs ht hlead htrail
  have hsp : TrimSpace (String.mk (w₁ ++ s ++ h ++ t ++ w₂)) = String.mk (s ++ h ++ t) := by
    unfold TrimSpace
    have hre : w₁ ++ s ++ h ++ t ++ w₂ = w₁ ++ (s ++ h ++ t) ++ w₂ := by
      simp only [List.append_assoc]
    simp only [hre, trim_sandwich w₁ (s ++ h ++ t) w₂ hw₁ hw₂ hhead hlast]
  have n7 : ¬ ['h', 't', 't', 'p', ':', '/', '/'] <+: h ++ t :=
    scheme_not_prefix_append _ h t (by simp) ht hhttp hslash
  have n8 : ¬ ['h', 't', 't', 'p', 's', ':', '/', '/'] <+: h ++ t :=
    scheme_not_prefix_append _ h t (by simp) ht hhttps hslash
  have hpre : TrimPrefix (TrimPrefix (String.mk (s ++ h ++ t)) "http://") "https://" =
      String.mk (h ++ t) := by
    rw [e7, e8]
    simp only [List.mem_cons, List.mem_singleton, List.not_mem_nil, or_false] at hs
    rcases hs with rfl | rfl | rfl
    · rw [List.nil_append, TrimPrefix_of_not _ _ n7, TrimPrefix_of_not _ _ n8]
    · rw [List.append_assoc, TrimPrefix_append, TrimPrefix_of_not _ _ n8]
    · have n78 : ¬ ['h', 't', 't', 'p', ':', '/', '/'] <+:
          ['h', 't', 't', 'p', 's', ':', '/', '/'] ++ (h ++ t) := by
        intro hp
        have := List.isPrefixOf_iff_prefix.mpr hp
        simp [List.isPrefixOf] at this
      rw [List.append_assoc, TrimPrefix_of_not _ _ n78, TrimPrefix_append]
  have hsuf : TrimSuffix (TrimSuffix (String.mk (h ++ t)) "/") "." = String.mk h := by
    rw [e1, e2]
    simp only [List.mem_cons, List.mem_singleton, List.not_mem_nil, or_false] at ht
    rcases ht with rfl | rfl | rfl | rfl
    · rw [List.append_nil, TrimSuffix_of_not _ _ hslash, TrimSuffix_of_not _ _ hdot]
    · rw [TrimSuffix_append, TrimSuffix_of_not _ _ hdot]
    · have n1 : ¬ ['/'] <:+ h ++ ['.'] :=
        not_suffix_of_getLast [] [] h '/' '.' (by decide)
      rw [TrimSuffix_of_not _ _ n1, TrimSuffix_append]
    · have hre : h ++ ['.', '/'] = (h ++ ['.']) ++ ['/'] := by simp
      rw [hre, TrimSuffix_append, TrimSuffix_append]
  unfold normalizeDomain
  simp only [hsp, hpre, hsuf]

/-- C12. Let `h` be a string without leading or trailing white space that does not
start with `http://` or `https://` and does not end with `/` or `.`.  For every scheme
`s` among the empty string, `http://` and `https://`, every trailer `t` among the empty
string, `/`, `.` and `./`, and all strings `w₁`, `w₂` of white space,
`normalizeDomain (w₁ ++ s ++ h ++ t ++ w₂) = h`; in particular `normalizeDomain h = h`. -/
theorem normalizeDomain_strips (h s t w₁ w₂ : String)
    (hlead : ∀ c ∈ h.data.head?, IsSpace c = false)
    (htrail : ∀ c ∈ h.data.getLast?, IsSpace c = false)
    (hhttp : HasPrefix h "http://" = false) (hhttps : HasPrefix h "https://" = false)
    (hslash : HasSuffix h "/" = false) (hdot : HasSuffix h "." = false)
    (hs : s = "" ∨ s = "http://" ∨ s = "https://")
    (ht : t = "" ∨ t = "/" ∨ t = "." ∨ t = "./")
    (hw₁ : ∀ c ∈ w₁.data, IsSpace c = true) (hw₂ : ∀ c ∈ w₂.data, IsSpace c = true) :
    normalizeDomain (w₁ ++ s ++ h ++ t ++ w₂) = h ∧ normalizeDomain h = h := by
  have hlead' : ∀ c, h.data.head? = some c → IsSpace c = false :=
    fun c hc => hlead c hc
  have htrail' : ∀ c, h.data.getLast? = some c → IsSpace c = false :=
    fun c hc => htrail c hc
  have n7 : ¬ ['h', 't', 't', 'p', ':', '/', '/'] <+: h.data := by
    intro hp
    have := List.isPrefixOf_iff_prefix.mpr hp
    unfold HasPrefix at hhttp
    rw [show ("http://" : String).data = ['h', 't', 't', 'p', ':', '/', '/'] by decide] at hhttp
    rw [this] at hhttp
    exact Bool.noConfusion hhttp
  have n8 : ¬ ['h', 't', 't', 'p', 's', ':', '/', '/'] <+: h.data := by
    intro hp
    have := List.isPrefixOf_iff_prefix.mpr hp
    unfold HasPrefix at hhttps
    rw [show ("https://" : String).data = ['h', 't', 't', 'p', 's', ':', '/', '/'] by decide]
      at hhttps
    rw [this] at hhttps
    exact Bool.noConfusion hhttps
  have n1 : ¬ ['/'] <:+ h.data := by
    intro hp
    have := List.isSuffixOf_iff_suffix.mpr hp
    unfold HasSuffix at hslash
    rw [show ("/" : String).data = ['/'] by decide] at hslash
    rw [this] at hslash
    exact Bool.noConfusion hslash
  have n2 : ¬ ['.'] <:+ h.data := by
    intro hp
    have := List.isSuffixOf_iff_suffix.mpr hp
    unfold HasSuffix at hdot
    rw [show (".": String).data = ['.'] by decide] at hdot
    rw [this] at hdot
    exact Bool.noConfusion hdot
  have hs' : s.data ∈ [[], ['h', 't', 't', 'p', ':', '/', '/'],
      ['h', 't', 't', 'p', 's', ':', '/', '/']] := by
    rcases hs with rfl | rfl | rfl <;> decide
  have ht' : t.data ∈ [[], ['/'], ['.'], ['.', '/']] := by
    rcases ht with rfl | rfl | rfl | rfl <;> decide
  constructor
  · have hcat : w₁ ++ s ++ h ++ t ++ w₂ =
        String.mk (w₁.data ++ s.data ++ h.data ++ t.data ++ w₂.data) := by
      apply String.ext
      simp only [String.data_append]
    rw [hcat]
    exact normalizeDomain_core w₁.data s.data h.data t.data w₂.data hs' ht' hw₁ hw₂
      hlead' htrail' n7 n8 n1 n2
  · have hcat : h = String.mk ([] ++ [] ++ h.data ++ [] ++ []) := by
      apply String.ext
      simp
    have := normalizeDomain_core [] [] h.data [] [] (by simp) (by simp) (by simp) (by simp)
      hlead' htrail' n7 n8 n1 n2
    rw [← hcat] at this
    exact this

/-- C12, at a concrete input: white space, the `https` scheme and the trailer `./`
around `example.com`. -/
theorem normalizeDomain_strips_witness :
    normalizeDomain "  https://example.com./ " = "example.com" :=
  (normalizeDomain_strips "example.com" "https://" "./" "  " " " (by decide) (by decide)
    (by decide) (by decide) (by decide) (by decide) (by decide) (by decide) (by decide)
    (by decide)).1

end SiteStress

namespace UltraCrack

/-! ## The attack loop -/

theorem tryPasswords_none (attempt : Nat → Nat → Bool) (i : Nat) (u : String)
    (passwords : List String) :
    ∀ (j : Nat) (st : Attack), st.found = false →
    (∀ k, k < passwords.length → attempt i (j + k) = false) →
    tryPasswords attempt i u j passwords st =
      { st with count := st.count + passwords.length,
                attempts := st.attempts ++ passwords.map (fun p => (u, p)) } := by
  induction passwords with
  | nil => intro j st _ _; simp [tryPasswords]
  | cons p ps ih =>
    intro j st hf hall
    have h0 : attempt i j = false := by simpa using hall 0 (by simp)
    have hrest : ∀ k, k < ps.length → attempt i (j + 1 + k) = false := by
      intro k hk
      have := hall (k + 1) (by simp; omega)
      rw [show j + 1 + k = j + (k + 1) by omega]
      exact this
    rw [tryPasswords]
    simp only [hf, h0, Bool.false_eq_true, if_false]
    rw [ih (j + 1) _ rfl hrest]
    simp only [List.length_cons, List.map_cons, List.append_assoc, List.singleton_append]
    congr 1
    omega

theorem tryPasswords_first (attempt : Nat → Nat → Bool) (i : Nat) (u : String)
    (passwords : List String) :
    ∀ (j : Nat) (st : Attack) (k : Nat) (hk : k < passwords.length), st.found = false →
    attempt i (j + k) = true → (∀ k', k' < k → attempt i (j + k') = false) →
    tryPasswords attempt i u j passwords st =
      { count := st.count + k + 1, found := true,
        attempts := st.attempts ++ (passwords.take (k + 1)).map (fun p => (u, p)),
        reported := some (u, passwords.get ⟨k, hk⟩) } := by
  induction passwords with
  | nil => intro j st k hk; simp at hk
  | cons p ps ih =>
    intro j st k hk hf hyes hno
    cases k with
    | zero =>
      have h0 : attempt i j = true := by simpa using hyes
      rw [tryPasswords]
      simp [hf, h0]
    | succ k =>
      have h0 : attempt i j = false := by simpa using hno 0 (by omega)
      have hk' : k < ps.length := by simpa using hk
      have hyes' : attempt i (j + 1 + k) = true := by
        rw [show j + 1 + k = j + (k + 1) by omega]; exact hyes
      have hno' : ∀ k', k' < k → attempt i (j + 1 + k') = false := by
        intro k' hk''
        rw [show j + 1 + k' = j + (k' + 1) by omega]
        exact hno (k' + 1) (by omega)
      rw [tryPasswords]
      simp only [hf, h0, Bool.false_eq_true, if_false]
      rw [ih (j + 1) _ k hk' rfl hyes' hno']
      simp only [List.take_succ_cons, List.map_cons, List.append_assoc, List.singleton_append,
        List.get_cons_succ]
      congr 1
      omega

theorem specPairs_length (users passwords : List String) :
    (specPairs users passwords).length = users.length * passwords.length := by
  induction users with
  | nil => simp [specPairs]
  | cons u us ih => simp [specPairs, ih, Nat.succ_mul, Nat.add_comm]

theorem tryUsers_none (attempt : Nat → Nat → Bool) (passwords users : List String) :
    ∀ (i : Nat) (st : Attack), st.found = false →
    (∀ a b, a < users.length → b < passwords.length → attempt (i + a) b = false) →
    tryUsers attempt passwords i users st =
      { st with count := st.count + users.length * passwords.length,
                attempts := st.attempts ++ specPairs users passwords } := by
  induction users with
  | nil => intro i st _ _; simp [tryUsers, specPairs]
  | cons u us ih =>
    intro i st hf hall
    have hrow : ∀ k, k < passwords.length → attempt i (0 + k) = false := by
      intro k hk
      simpa using hall 0 k (by simp) hk
    have hrest : ∀ a b, a < us.length → b < passwords.length →
        attempt (i + 1 + a) b = false := by
      intro a b ha hb
      rw [show i + 1 + a = i + (a + 1) by omega]
      exact hall (a + 1) b (by simp; omega) hb
    rw [tryUsers, tryPasswords_none attempt i u passwords 0 st hf hrow]
    simp only [hf, Bool.false_eq_true, if_false]
    rw [ih (i + 1) _ rfl hrest]
    simp only [specPairs, List.length_cons, List.append_assoc, Nat.succ_mul]
    congr 1
    omega

theorem tryUsers_first (attempt : Nat → Nat → Bool) (passwords users : List String) :
    ∀ (i : Nat) (st : Attack) (a b : Nat) (ha : a < users.length)
      (hb : b < passwords.length), st.found = false →
    attempt (i + a) b = true →
    (∀ a' b', a' < users.length → b' < passwords.length → (a' < a ∨ (a' = a ∧ b' < b)) →
      attempt (i + a') b' = false) →
    tryUsers attempt passwords i users st =
      { count := st.count + (a * passwords.length + b + 1), found := true,
        attempts := st.attempts ++ (specPairs users passwords).take
          (a * passwords.length + b + 1),
        reported := some (users.get ⟨a, ha⟩, passwords.get ⟨b, hb⟩) } := by
  induction users with
  | nil => intro i st a b ha; simp at ha
  | cons u us ih =>
    intro i st a b ha hb hf hyes hno
    cases a with
    | zero =>
      have hyes' : attempt i (0 + b) = true := by simpa using hyes
      have hno' : ∀ k', k' < b → attempt i (0 + k') = false := by
        intro k' hk'
        simpa using hno 0 k' (by simp) (by omega) (Or.inr ⟨rfl, hk'⟩)
      rw [tryUsers, tryPasswords_first attempt i u passwords 0 st b hb hf hyes' hno']
      simp only [if_true, specPairs, Nat.zero_mul, Nat.zero_add, List.get_cons_zero]
      rw [List.take_append_of_le_length
        (show b + 1 ≤ (passwords.map (fun p => (u, p))).length by simp; omega), List.map_take]
      simp [Nat.add_assoc]
    | succ a =>
      have ha' : a < us.length := by simpa using ha
      have hrow : ∀ k, k < passwords.length → attempt i (0 + k) = false := by
        intro k hk
        simpa using hno 0 k (by simp) hk (Or.inl (by omega))
      have hyes' : attempt (i + 1 + a) b = true := by
        rw [show i + 1 + a = i + (a + 1) by omega]; exact hyes
      have hno' : ∀ a' b', a' < us.length → b' < passwords.length →
          (a' < a ∨ (a' = a ∧ b' < b)) → attempt (i + 1 + a') b' = false := by
        intro a' b' h1 h2 h3
        rw [show i + 1 + a' = i + (a' + 1) by omega]
        refine hno (a' + 1) b' (by simp; omega) h2 ?_
        rcases h3 with h3 | ⟨h3, h4⟩
        · exact Or.inl (by omega)
        · exact Or.inr ⟨by omega, h4⟩
      rw [tryUsers, tryPasswords_none attempt i u passwords 0 st hf hrow]
      simp only [hf, Bool.false_eq_true, if_false]
      rw [ih (i + 1) _ a b ha' hb rfl hyes' hno']
      have hlen : (a + 1) * passwords.length + b + 1 =
          (passwords.map (fun p => (u, p))).length + (a * passwords.length + b + 1) := by
        simp only [List.length_map, Nat.succ_mul]; omega
      simp only [specPairs, List.get_cons_succ]
      rw [hlen, List.take_append]
      simp only [List.length_map, List.append_assoc, Attack.mk.injEq, and_true, true_and]
      omega

theorem specPairs_getElem? (passwords users : List String) :
    ∀ (i j : Nat) (hi : i < users.length) (hj : j < passwords.length),
    (specPairs users passwords)[i * passwords.length + j]? =
      some (users.get ⟨i, hi⟩, passwords.get ⟨j, hj⟩) := by
  induction users with
  | nil => intro i j hi; simp at hi
  | cons u us ih =>
    intro i j hi hj
    cases i with
    | zero =>
      simp only [specPairs, Nat.zero_mul, Nat.zero_add]
      rw [List.getElem?_append_left (by simpa using hj)]
      simp [hj]
    | succ i =>
      have hi' : i < us.length := by simpa using hi
      simp only [specPairs]
      rw [List.getElem?_append_right (by simp [Nat.succ_mul]; omega)]
      have hidx : (i + 1) * passwords.length + j -
          (passwords.map (fun p => (u, p))).length = i * passwords.length + j := by
        simp only [List.length_map, Nat.succ_mul]; omega
      rw [hidx, ih i j hi' hj]
      rfl

/-- C11. For non-empty lists of users and passwords and any answers of the target:
when the first pair in user-major order whose attempt succeeds is the one at user index
`i` and password index `j`, the loop makes exactly `i * |passwords| + j + 1` attempts,
which are the first so many pairs of the user-major order, the last of them being that
pair, and prints that pair as found; when no attempt succeeds, the attempts are all
`|users| * |passwords|` pairs in user-major order and nothing is printed as found.  In
the user-major order the pair of user `i` and password `j` sits at place
`i * |passwords| + j`, so every pair occurs exactly once. -/
theorem attack_first_match (attempt : Nat → Nat → Bool) (users passwords : List String)
    (hu : users ≠ []) (hp : passwords ≠ []) :
    (∀ (i j : Nat) (hi : i < users.length) (hj : j < passwords.length),
      attempt i j = true →
      (∀ i', i' < users.length → ∀ j', j' < passwords.length →
        (i' < i ∨ (i' = i ∧ j' < j)) → attempt i' j' = false) →
      runAttack attempt users passwords = some
        { count := i * passwords.length + j + 1, found := true,
          attempts := (specPairs users passwords).take (i * passwords.length + j + 1),
          reported := some (users.get ⟨i, hi⟩, passwords.get ⟨j, hj⟩) }) ∧
    ((∀ i, i < users.length → ∀ j, j < passwords.length → attempt i j = false) →
      runAttack attempt users passwords = some
        { count := users.length * passwords.length, found := false,
          attempts := specPairs users passwords, reported := none }) ∧
    (specPairs users passwords).length = users.length * passwords.length ∧
    (∀ (i j : Nat) (hi : i < users.length) (hj : j < passwords.length),
      (specPairs users passwords)[i * passwords.length + j]? =
        some (users.get ⟨i, hi⟩, passwords.get ⟨j, hj⟩)) := by
  have hu' : (users.length == 0) = false := by
    cases users with
    | nil => exact absurd rfl hu
    | cons u us => rfl
  have hp' : (passwords.length == 0) = false := by
    cases passwords with
    | nil => exact absurd rfl hp
    | cons p ps => rfl
  refine ⟨?_, ?_, specPairs_length users passwords, specPairs_getElem? passwords users⟩
  · intro i j hi hj hyes hno
    unfold runAttack
    simp only [hu', hp', Bool.false_eq_true, if_false]
    rw [tryUsers_first attempt passwords users 0 _ i j hi hj rfl (by simpa using hyes)
      (fun a' b' h1 h2 h3 => by simpa using hno a' h1 b' h2 h3)]
    simp
  · intro hall
    unfold runAttack
    simp only [hu', hp', Bool.false_eq_true, if_false]
    rw [tryUsers_none attempt passwords users 0 _ rfl
      (fun a b h1 h2 => by simpa using hall a h1 b h2)]
    simp

/-- C11, at a concrete run: three users, three passwords, and a target that accepts the
second user with the third password (and would accept later pairs too). -/
theorem attack_first_match_witness :
    runAttack (fun i j => decide (i * 3 + j ≥ 5)) ["root", "admin", "guest"]
        ["123456", "password", "letmein"] =
      some { count := 6, found := true,
             attempts := [("root", "123456"), ("root", "password"), ("root", "letmein"),
                          ("admin", "123456"), ("admin", "password"), ("admin", "letmein")],
             reported := some ("admin", "letmein") } :=
  (attack_first_match (fun i j => decide (i * 3 + j ≥ 5)) ["root", "admin", "guest"]
    ["123456", "password", "letmein"] (by decide) (by decide)).1 1 2 (by decide) (by decide)
    (by decide) (by decide)

end UltraCrack
